import Mathlib

/-!
# pogo: the search plugin's request/response codec and dispatch

A shallow embedding of `src/search/search_impl.go` (`errorResponse`,
`searchResponse`, `Execute`, `ProcessProject`) together with the parts of the Go
standard library that those functions call: `net/url` (`QueryEscape`,
`QueryUnescape`), `unicode/utf8` (`DecodeRune`, `EncodeRune`) and
`encoding/json` (`Marshal` of the three response/request structs, the scanner of
`scanner.go`, `unquoteBytes`, and `Unmarshal` into the structs).

A Go string is a sequence of bytes; a byte is a natural number below 256. The
functions are defined on every list of natural numbers and the theorems hold for all
of them, byte strings in particular; a number from 256 on is treated as a byte that is
not part of a UTF-8 encoding. Bit operations of the library are written
arithmetically: `x >> 4` is `x / 16`, `x & 15` is `x % 16`, `x & 0x3F` is `x % 64`,
`a << 6 | b` (disjoint bits) is `a * 64 + b`.

What is not in the sources is a parameter or is taken from the spec: the method
`GetFiles` is a parameter of `Execute`; the struct `IndexedProject` and the request
type of `ProcessProject` have the fields the spec gives them.
-/

namespace Pogo

/-- A Go string or byte slice: its bytes in order. -/
abbrev GoString := List Nat

/-- The bytes of an ASCII string literal. -/
def str (s : String) : GoString := s.toList.map Char.toNat

/-- Equality of two results of a call that may fail is decidable. -/
instance instDecidableEqExcept {ε α : Type} [DecidableEq ε] [DecidableEq α] :
    DecidableEq (Except ε α) := fun a b =>
  match a, b with
  | .ok x, .ok y =>
    if h : x = y then isTrue (by rw [h]) else isFalse (fun h2 => h (by cases h2; rfl))
  | .error x, .error y =>
    if h : x = y then isTrue (by rw [h]) else isFalse (fun h2 => h (by cases h2; rfl))
  | .ok _, .error _ => isFalse (fun h => by cases h)
  | .error _, .ok _ => isFalse (fun h => by cases h)

/-! ## net/url -/

/-- Go `url.ishex`. -/
def ishex (c : Nat) : Bool :=
  (48 ≤ c && c ≤ 57) || (97 ≤ c && c ≤ 102) || (65 ≤ c && c ≤ 70)

/-- Go `url.unhex`. -/
def unhex (c : Nat) : Nat :=
  if 48 ≤ c ∧ c ≤ 57 then c - 48
  else if 97 ≤ c ∧ c ≤ 102 then c - 97 + 10
  else if 65 ≤ c ∧ c ≤ 70 then c - 65 + 10
  else 0

/-- Go `url.upperhex[n]`, the table being "0123456789ABCDEF". -/
def upperhex (n : Nat) : Nat := (str "0123456789ABCDEF").getD n 0

/-- Go `url.shouldEscape(c, encodeQueryComponent)`: only ASCII letters, digits and
`-`, `_`, `.`, `~` stay as they are. -/
def shouldEscape (c : Nat) : Bool :=
  if (97 ≤ c ∧ c ≤ 122) ∨ (65 ≤ c ∧ c ≤ 90) ∨ (48 ≤ c ∧ c ≤ 57) then false
  else if c = 45 ∨ c = 95 ∨ c = 46 ∨ c = 126 then false
  else true

/-- Go `url.QueryEscape`: a space becomes `+`, an escaped byte becomes `%XX`. -/
def QueryEscape : GoString → GoString
  | [] => []
  | c :: s =>
    if c = 32 then 43 :: QueryEscape s
    else if shouldEscape c then 37 :: upperhex (c / 16) :: upperhex (c % 16) :: QueryEscape s
    else c :: QueryEscape s

/-- First loop of Go `url.unescape`: finds the first `%` that is not followed by two
hexadecimal digits and returns the offending fragment (at most three bytes). -/
def unescapeCheck : GoString → Option GoString
  | [] => none
  | c :: s =>
    if c = 37 then
      match s with
      | a :: b :: t => if ishex a && ishex b then unescapeCheck t else some [37, a, b]
      | _ => some (c :: s)
    else unescapeCheck s

/-- Second loop of Go `url.unescape` in query-component mode. -/
def unescapeBuild : GoString → GoString
  | [] => []
  | c :: s =>
    if c = 37 then
      match s with
      | a :: b :: t => (unhex a * 16 + unhex b) :: unescapeBuild t
      | _ => []
    else if c = 43 then 32 :: unescapeBuild s
    else c :: unescapeBuild s

/-- Go `url.EscapeError`, carrying the malformed fragment. -/
inductive EscapeError where
  | mk (fragment : GoString)
  deriving DecidableEq, Repr

/-- Go `url.QueryUnescape`. -/
def QueryUnescape (s : GoString) : Except EscapeError GoString :=
  match unescapeCheck s with
  | some frag => .error (.mk frag)
  | none => .ok (unescapeBuild s)

/-! ## unicode/utf8 -/

/-- Go `utf8.RuneError`, U+FFFD. -/
def RuneError : Nat := 0xFFFD

/-- Go `utf8.first` with `utf8.acceptRanges`: for a lead byte, the length of the
sequence and the accepted range of its second byte; `none` is the table's `xx`. -/
def firstInfo (p0 : Nat) : Option (Nat × Nat × Nat) :=
  if 0xC2 ≤ p0 ∧ p0 ≤ 0xDF then some (2, 0x80, 0xBF)
  else if p0 = 0xE0 then some (3, 0xA0, 0xBF)
  else if 0xE1 ≤ p0 ∧ p0 ≤ 0xEC then some (3, 0x80, 0xBF)
  else if p0 = 0xED then some (3, 0x80, 0x9F)
  else if 0xEE ≤ p0 ∧ p0 ≤ 0xEF then some (3, 0x80, 0xBF)
  else if p0 = 0xF0 then some (4, 0x90, 0xBF)
  else if 0xF1 ≤ p0 ∧ p0 ≤ 0xF3 then some (4, 0x80, 0xBF)
  else if p0 = 0xF4 then some (4, 0x80, 0x8F)
  else none

/-- Go `utf8.DecodeRune`: the first rune of `p` and its width in bytes; an invalid
or truncated encoding gives `(RuneError, 1)`, the empty input `(RuneError, 0)`. -/
def DecodeRune (p : GoString) : Nat × Nat :=
  match p with
  | [] => (RuneError, 0)
  | p0 :: rest =>
    if p0 < 0x80 then (p0, 1) else
    match firstInfo p0 with
    | none => (RuneError, 1)
    | some (sz, lo, hi) =>
      if rest.length + 1 < sz then (RuneError, 1) else
      let b1 := rest.getD 0 0
      if b1 < lo ∨ hi < b1 then (RuneError, 1) else
      if sz ≤ 2 then ((p0 % 32) * 64 + b1 % 64, 2) else
      let b2 := rest.getD 1 0
      if b2 < 0x80 ∨ 0xBF < b2 then (RuneError, 1) else
      if sz ≤ 3 then ((p0 % 16) * 4096 + (b1 % 64) * 64 + b2 % 64, 3) else
      let b3 := rest.getD 2 0
      if b3 < 0x80 ∨ 0xBF < b3 then (RuneError, 1) else
      ((p0 % 8) * 262144 + (b1 % 64) * 4096 + (b2 % 64) * 64 + b3 % 64, 4)

/-- Go `utf8.EncodeRune` / `utf8.AppendRune`: surrogates and values above U+10FFFF
are written as U+FFFD. -/
def EncodeRune (r : Nat) : GoString :=
  if r < 0x80 then [r]
  else if r < 0x800 then [0xC0 + r / 64, 0x80 + r % 64]
  else if 0x10FFFF < r ∨ (0xD800 ≤ r ∧ r ≤ 0xDFFF) then [0xEF, 0xBF, 0xBD]
  else if r < 0x10000 then [0xE0 + r / 4096, 0x80 + r / 64 % 64, 0x80 + r % 64]
  else [0xF0 + r / 262144, 0x80 + r / 4096 % 64, 0x80 + r / 64 % 64, 0x80 + r % 64]

/-- Loop of Go `utf8.Valid`: every position decodes to a rune, none to the
`(RuneError, 1)` of an invalid byte. The fuel is the number of bytes left. -/
def validLoop : Nat → GoString → Bool
  | 0, s => s.isEmpty
  | _ + 1, [] => true
  | fuel + 1, b :: rest =>
    if (DecodeRune (b :: rest)).2 = 1 ∧ 0x80 ≤ b then false
    else validLoop fuel (rest.drop ((DecodeRune (b :: rest)).2 - 1))

/-- Go `utf8.ValidString`. -/
def ValidString (s : GoString) : Bool := validLoop s.length s

/-- What Go's JSON encoder and decoder make of a string that is not well-formed
UTF-8: each byte that is not part of a valid encoding is replaced by U+FFFD (bytes
EF BF BD), valid encodings are kept. The fuel is the number of bytes left. -/
def coerceLoop : Nat → GoString → GoString
  | 0, _ => []
  | _ + 1, [] => []
  | fuel + 1, b :: rest =>
    if b < 0x80 then b :: coerceLoop fuel rest
    else if (DecodeRune (b :: rest)).2 = 1 then [0xEF, 0xBF, 0xBD] ++ coerceLoop fuel rest
    else (b :: rest).take (DecodeRune (b :: rest)).2
      ++ coerceLoop fuel (rest.drop ((DecodeRune (b :: rest)).2 - 1))

/-- The string with every invalid byte replaced by U+FFFD. -/
def coerceUTF8 (s : GoString) : GoString := coerceLoop s.length s

/-! ## encoding/json: writing -/

/-- Go `json.hex`, the table "0123456789abcdef". -/
def hex (n : Nat) : Nat := (str "0123456789abcdef").getD n 0

/-- Go `json.htmlSafeSet`: the ASCII bytes written without escaping when HTML
escaping is on (the default of `json.Marshal`). -/
def htmlSafeSet (b : Nat) : Bool :=
  decide (0x20 ≤ b ∧ b < 0x80 ∧ b ≠ 34 ∧ b ≠ 38 ∧ b ≠ 60 ∧ b ≠ 62 ∧ b ≠ 92)

/-- The escape Go `json.appendString` writes for an ASCII byte outside `htmlSafeSet`
(Go 1.22 and later; earlier releases write the longer forms \u0008 and \u000c for
backspace and form feed, which `Unmarshal` reads back to the same bytes). -/
def escapeByte (b : Nat) : GoString :=
  if b = 92 ∨ b = 34 then [92, b]
  else if b = 8 then [92, 98]
  else if b = 12 then [92, 102]
  else if b = 10 then [92, 110]
  else if b = 13 then [92, 114]
  else if b = 9 then [92, 116]
  else [92, 117, 48, 48, hex (b / 16), hex (b % 16)]

/-- Loop of Go `json.appendString` with `escapeHTML = true`: the text between the
quotes. The fuel is the number of bytes left. -/
def appendStringLoop : Nat → GoString → GoString
  | 0, _ => []
  | _ + 1, [] => []
  | fuel + 1, b :: rest =>
    if b < 0x80 then
      (if htmlSafeSet b then [b] else escapeByte b) ++ appendStringLoop fuel rest
    else if (DecodeRune (b :: rest)).1 = RuneError ∧ (DecodeRune (b :: rest)).2 = 1 then
      str "\\ufffd" ++ appendStringLoop fuel rest
    else if (DecodeRune (b :: rest)).1 = 0x2028 ∨ (DecodeRune (b :: rest)).1 = 0x2029 then
      [92, 117, 50, 48, 50, hex ((DecodeRune (b :: rest)).1 % 16)]
        ++ appendStringLoop fuel (rest.drop ((DecodeRune (b :: rest)).2 - 1))
    else
      (b :: rest).take (DecodeRune (b :: rest)).2
        ++ appendStringLoop fuel (rest.drop ((DecodeRune (b :: rest)).2 - 1))

/-- Go `json.appendString`: a quoted JSON string literal. -/
def appendString (src : GoString) : GoString :=
  34 :: (appendStringLoop src.length src ++ [34])

/-- Decimal digits of a natural number, most significant first; the fuel bounds the
number of digits. -/
def formatBits : Nat → Nat → GoString
  | 0, _ => []
  | fuel + 1, n => if n < 10 then [48 + n] else formatBits fuel (n / 10) ++ [48 + n % 10]

/-- Go `strconv.AppendInt(i, 10)`. -/
def FormatInt (i : Int) : GoString :=
  if i < 0 then 45 :: formatBits (i.natAbs + 1) i.natAbs else formatBits (i.natAbs + 1) i.natAbs

/-! ## encoding/json: reading string literals -/

/-- Go `json.getu4`: the code unit of a `\uXXXX` escape at the start of `s`; `none`
is Go's `-1`. -/
def getu4 (s : GoString) : Option Nat :=
  match s with
  | c0 :: c1 :: a :: b :: c :: d :: _ =>
    if c0 = 92 ∧ c1 = 117 ∧ ishex a ∧ ishex b ∧ ishex c ∧ ishex d then
      some (((unhex a * 16 + unhex b) * 16 + unhex c) * 16 + unhex d)
    else none
  | _ => none

/-- Go `utf16.DecodeRune`: the code point of a surrogate pair, U+FFFD when the two
units are not a valid pair. -/
def utf16DecodeRune (r1 r2 : Nat) : Nat :=
  if 0xD800 ≤ r1 ∧ r1 < 0xDC00 ∧ 0xDC00 ≤ r2 ∧ r2 < 0xE000 then
    (r1 - 0xD800) * 1024 + (r2 - 0xDC00) + 0x10000
  else RuneError

/-- Main loop of Go `json.unquoteBytes` over the text between the quotes (the
preceding fast path copies a prefix that this loop would copy unchanged). `none` is
Go's `ok = false`. The fuel is the number of bytes left. -/
def unquoteLoop : Nat → GoString → Option GoString
  | 0, s => if s.isEmpty then some [] else none
  | _ + 1, [] => some []
  | fuel + 1, c :: s =>
    if c = 92 then
      match s with
      | [] => none
      | e :: s1 =>
        if e = 34 ∨ e = 92 ∨ e = 47 ∨ e = 39 then (unquoteLoop fuel s1).map (e :: ·)
        else if e = 98 then (unquoteLoop fuel s1).map (8 :: ·)
        else if e = 102 then (unquoteLoop fuel s1).map (12 :: ·)
        else if e = 110 then (unquoteLoop fuel s1).map (10 :: ·)
        else if e = 114 then (unquoteLoop fuel s1).map (13 :: ·)
        else if e = 116 then (unquoteLoop fuel s1).map (9 :: ·)
        else if e = 117 then
          match getu4 (c :: s) with
          | none => none
          | some rr =>
            if 0xD800 ≤ rr ∧ rr < 0xE000 then
              match getu4 (s1.drop 4) with
              | some rr1 =>
                if utf16DecodeRune rr rr1 ≠ RuneError then
                  (unquoteLoop fuel (s1.drop 10)).map (EncodeRune (utf16DecodeRune rr rr1) ++ ·)
                else (unquoteLoop fuel (s1.drop 4)).map (EncodeRune RuneError ++ ·)
              | none => (unquoteLoop fuel (s1.drop 4)).map (EncodeRune RuneError ++ ·)
            else (unquoteLoop fuel (s1.drop 4)).map (EncodeRune rr ++ ·)
        else none
    else if c = 34 ∨ c < 32 then none
    else if c < 0x80 then (unquoteLoop fuel s).map (c :: ·)
    else
      (unquoteLoop fuel (s.drop ((DecodeRune (c :: s)).2 - 1))).map
        (EncodeRune (DecodeRune (c :: s)).1 ++ ·)

/-- Go `json.unquoteBytes`: the contents of a quoted JSON string literal. -/
def unquoteBytes (s : GoString) : Option GoString :=
  match s with
  | [] => none
  | q :: t =>
    if t.length < 1 ∨ q ≠ 34 ∨ t.getLast? ≠ some 34 then none
    else unquoteLoop t.dropLast.length t.dropLast

/-! ## encoding/json: the scanner and the value it reads -/

/-- A JSON value as `Unmarshal` sees it: strings already unquoted, numbers kept as
their literal text, object members in document order. -/
inductive JValue where
  | null
  | bool (b : Bool)
  | number (lit : GoString)
  | string (s : GoString)
  | array (elems : List JValue)
  | object (members : List (GoString × JValue))

/-- An entry of the scanner's `parseState` stack (`parseObjectKey`,
`parseObjectValue`, `parseArrayValue` of scanner.go), with what has been read of
the enclosing composite value so far. -/
inductive ParseState where
  | parseObjectKey (members : List (GoString × JValue))
  | parseObjectValue (members : List (GoString × JValue)) (key : GoString)
  | parseArrayValue (elems : List JValue)

/-- The `step` function the scanner is in (the `stateXxx` functions of scanner.go).
`EndValue` and `EndTop` carry the value that has just been completed. -/
inductive Step where
  | BeginValueOrEmpty | BeginValue | BeginStringOrEmpty | BeginString
  | EndValue (v : JValue) | EndTop (v : JValue)
  | InString | InStringEsc | InStringEscU | InStringEscU1 | InStringEscU12 | InStringEscU123
  | Neg | S1 | S0 | Dot | Dot0 | E | ESign | E0
  | T | Tr | Tru | F | Fa | Fal | Fals | N | Nu | Nul

/-- Go `json.scanner`: the current step, the stack of composite values being read
(innermost first) and the bytes of the literal being read. -/
structure Scanner where
  step : Step
  parseState : List ParseState
  lit : GoString

/-- How reading can stop early: a `SyntaxError` of the scanner, or the decoder's
`panic(phasePanicMsg)` ("JSON decoder out of sync"). -/
inductive ScanError where
  | scanError
  | phasePanic
  deriving DecidableEq, Repr

/-- Go `json.isSpace`. -/
def isSpace (c : Nat) : Bool := decide (c ≤ 32 ∧ (c = 32 ∨ c = 9 ∨ c = 13 ∨ c = 10))

/-- Go `json.maxNestingDepth`. -/
def maxNestingDepth : Nat := 10000

/-- Go `scanner.pushParseState`: entering an object or array, refused beyond
`maxNestingDepth`. -/
def pushParseState (s : Scanner) (ps : ParseState) (successState : Step) :
    Except ScanError Scanner :=
  if s.parseState.length + 1 ≤ maxNestingDepth then
    .ok { step := successState, parseState := ps :: s.parseState, lit := [] }
  else .error .scanError

/-- Go `scanner.popParseState`, leaving the composite value `v` that was closed:
back at top level the scanner is in `stateEndTop`, else in `stateEndValue`. -/
def popParseState (rest : List ParseState) (v : JValue) : Scanner :=
  { step := if rest.isEmpty then .EndTop v else .EndValue v, parseState := rest, lit := [] }

/-- Go `stateBeginValue`. -/
def stateBeginValue (s : Scanner) (c : Nat) : Except ScanError Scanner :=
  if isSpace c then .ok s
  else if c = 123 then pushParseState s (.parseObjectKey []) .BeginStringOrEmpty
  else if c = 91 then pushParseState s (.parseArrayValue []) .BeginValueOrEmpty
  else if c = 34 then .ok { s with step := .InString, lit := [34] }
  else if c = 45 then .ok { s with step := .Neg, lit := [45] }
  else if c = 48 then .ok { s with step := .S0, lit := [48] }
  else if c = 116 then .ok { s with step := .T, lit := [c] }
  else if c = 102 then .ok { s with step := .F, lit := [c] }
  else if c = 110 then .ok { s with step := .N, lit := [c] }
  else if 49 ≤ c ∧ c ≤ 57 then .ok { s with step := .S1, lit := [c] }
  else .error .scanError

/-- Go `stateBeginString`. -/
def stateBeginString (s : Scanner) (c : Nat) : Except ScanError Scanner :=
  if isSpace c then .ok s
  else if c = 34 then .ok { s with step := .InString, lit := [34] }
  else .error .scanError

/-- Go `stateEndValue`, `v` being the value completed before the byte `c`. An object
key is always a string literal: any other value under `parseObjectKey` means the
decoder is out of sync. -/
def stateEndValue (s : Scanner) (v : JValue) (c : Nat) : Except ScanError Scanner :=
  match s.parseState with
  | [] => if isSpace c then .ok { s with step := .EndTop v, lit := [] } else .error .scanError
  | ps :: rest =>
    if isSpace c then .ok { s with step := .EndValue v, lit := [] }
    else
      match ps with
      | .parseObjectKey ms =>
        if c = 58 then
          match v with
          | .string k =>
            .ok { step := .BeginValue, parseState := .parseObjectValue ms k :: rest, lit := [] }
          | _ => .error .phasePanic
        else .error .scanError
      | .parseObjectValue ms k =>
        if c = 44 then
          .ok { step := .BeginString, parseState := .parseObjectKey (ms ++ [(k, v)]) :: rest,
                lit := [] }
        else if c = 125 then .ok (popParseState rest (.object (ms ++ [(k, v)])))
        else .error .scanError
      | .parseArrayValue xs =>
        if c = 44 then
          .ok { step := .BeginValue, parseState := .parseArrayValue (xs ++ [v]) :: rest, lit := [] }
        else if c = 93 then .ok (popParseState rest (.array (xs ++ [v])))
        else .error .scanError

/-- One call `s.step(s, c)` of the scanner, together with building the value read.
A string literal is unquoted with `unquoteBytes` when its closing quote is read; Go
panics with `phasePanicMsg` should that fail. -/
def scanStep (s : Scanner) (c : Nat) : Except ScanError Scanner :=
  match s.step with
  | .BeginValueOrEmpty =>
    if isSpace c then .ok s
    else if c = 93 then
      match s.parseState with
      | .parseArrayValue xs :: rest => .ok (popParseState rest (.array xs))
      | _ => .error .scanError
    else stateBeginValue s c
  | .BeginValue => stateBeginValue s c
  | .BeginStringOrEmpty =>
    if isSpace c then .ok s
    else if c = 125 then
      match s.parseState with
      | .parseObjectKey ms :: rest => .ok (popParseState rest (.object ms))
      | _ => .error .scanError
    else stateBeginString s c
  | .BeginString => stateBeginString s c
  | .EndValue v => stateEndValue s v c
  | .EndTop v => if isSpace c then .ok { s with step := .EndTop v } else .error .scanError
  | .InString =>
    if c = 34 then
      match unquoteBytes (s.lit ++ [34]) with
      | some t => .ok { s with step := .EndValue (.string t), lit := [] }
      | none => .error .phasePanic
    else if c = 92 then .ok { s with step := .InStringEsc, lit := s.lit ++ [c] }
    else if c < 32 then .error .scanError
    else .ok { s with lit := s.lit ++ [c] }
  | .InStringEsc =>
    if c = 98 ∨ c = 102 ∨ c = 110 ∨ c = 114 ∨ c = 116 ∨ c = 92 ∨ c = 47 ∨ c = 34 then
      .ok { s with step := .InString, lit := s.lit ++ [c] }
    else if c = 117 then .ok { s with step := .InStringEscU, lit := s.lit ++ [c] }
    else .error .scanError
  | .InStringEscU =>
    if ishex c then .ok { s with step := .InStringEscU1, lit := s.lit ++ [c] }
    else .error .scanError
  | .InStringEscU1 =>
    if ishex c then .ok { s with step := .InStringEscU12, lit := s.lit ++ [c] }
    else .error .scanError
  | .InStringEscU12 =>
    if ishex c then .ok { s with step := .InStringEscU123, lit := s.lit ++ [c] }
    else .error .scanError
  | .InStringEscU123 =>
    if ishex c then .ok { s with step := .InString, lit := s.lit ++ [c] }
    else .error .scanError
  | .Neg =>
    if c = 48 then .ok { s with step := .S0, lit := s.lit ++ [c] }
    else if 49 ≤ c ∧ c ≤ 57 then .ok { s with step := .S1, lit := s.lit ++ [c] }
    else .error .scanError
  | .S1 =>
    if 48 ≤ c ∧ c ≤ 57 then .ok { s with lit := s.lit ++ [c] }
    else if c = 46 then .ok { s with step := .Dot, lit := s.lit ++ [c] }
    else if c = 101 ∨ c = 69 then .ok { s with step := .E, lit := s.lit ++ [c] }
    else stateEndValue s (.number s.lit) c
  | .S0 =>
    if c = 46 then .ok { s with step := .Dot, lit := s.lit ++ [c] }
    else if c = 101 ∨ c = 69 then .ok { s with step := .E, lit := s.lit ++ [c] }
    else stateEndValue s (.number s.lit) c
  | .Dot =>
    if 48 ≤ c ∧ c ≤ 57 then .ok { s with step := .Dot0, lit := s.lit ++ [c] }
    else .error .scanError
  | .Dot0 =>
    if 48 ≤ c ∧ c ≤ 57 then .ok { s with lit := s.lit ++ [c] }
    else if c = 101 ∨ c = 69 then .ok { s with step := .E, lit := s.lit ++ [c] }
    else stateEndValue s (.number s.lit) c
  | .E =>
    if c = 43 ∨ c = 45 then .ok { s with step := .ESign, lit := s.lit ++ [c] }
    else if 48 ≤ c ∧ c ≤ 57 then .ok { s with step := .E0, lit := s.lit ++ [c] }
    else .error .scanError
  | .ESign =>
    if 48 ≤ c ∧ c ≤ 57 then .ok { s with step := .E0, lit := s.lit ++ [c] }
    else .error .scanError
  | .E0 =>
    if 48 ≤ c ∧ c ≤ 57 then .ok { s with lit := s.lit ++ [c] }
    else stateEndValue s (.number s.lit) c
  | .T => if c = 114 then .ok { s with step := .Tr } else .error .scanError
  | .Tr => if c = 117 then .ok { s with step := .Tru } else .error .scanError
  | .Tru => if c = 101 then .ok { s with step := .EndValue (.bool true), lit := [] }
            else .error .scanError
  | .F => if c = 97 then .ok { s with step := .Fa } else .error .scanError
  | .Fa => if c = 108 then .ok { s with step := .Fal } else .error .scanError
  | .Fal => if c = 115 then .ok { s with step := .Fals } else .error .scanError
  | .Fals => if c = 101 then .ok { s with step := .EndValue (.bool false), lit := [] }
             else .error .scanError
  | .N => if c = 117 then .ok { s with step := .Nu } else .error .scanError
  | .Nu => if c = 108 then .ok { s with step := .Nul } else .error .scanError
  | .Nul => if c = 108 then .ok { s with step := .EndValue .null, lit := [] }
            else .error .scanError

/-- Feeding the bytes of the input to the scanner, as the loop of Go
`json.checkValid` does, stopping at the first error. -/
def scanRun : Scanner → GoString → Except ScanError Scanner
  | s, [] => .ok s
  | s, c :: cs =>
    match scanStep s c with
    | .ok s1 => scanRun s1 cs
    | .error e => .error e

/-- Go `scanner.reset`. -/
def scanReset : Scanner := { step := .BeginValue, parseState := [], lit := [] }

/-- Go `scanner.eof`: the input is complete when the scanner is at `stateEndTop`,
possibly after one more space; otherwise "unexpected end of JSON input". -/
def scanEof (s : Scanner) : Except ScanError JValue :=
  match s.step with
  | .EndTop v => .ok v
  | _ =>
    match scanStep s 32 with
    | .ok s1 =>
      match s1.step with
      | .EndTop v => .ok v
      | _ => .error .scanError
    | .error e => .error e

/-- Go `json.checkValid` followed by reading the value: the whole input must be one
JSON value, surrounded by optional white space. -/
def jsonParse (data : GoString) : Except ScanError JValue :=
  match scanRun scanReset data with
  | .ok s => scanEof s
  | .error e => .error e

/-! ## encoding/json: decoding into the structs of the plugin -/

/-- Upper-case form of an ASCII byte, other bytes unchanged. -/
def toUpperASCII (c : Nat) : Nat := if 97 ≤ c ∧ c ≤ 122 then c - 32 else c

/-- The case-insensitive comparison `Unmarshal` makes between an ASCII field name
and an object key (Go `json.foldName`, before Go 1.21 `json.equalFold`): ASCII
letters match in either case, and the two non-ASCII runes that fold to an ASCII
letter match it, U+017F (bytes C5 BF) the letter s and U+212A (bytes E2 84 AA) the
letter k. -/
def equalFold : GoString → GoString → Bool
  | [], [] => true
  | n :: ns, k :: ks =>
    if k < 0x80 then decide (toUpperASCII k = toUpperASCII n) && equalFold ns ks
    else if k = 0xC5 then
      match ks with
      | k1 :: ks1 => decide (k1 = 0xBF) && decide (toUpperASCII n = 83) && equalFold ns ks1
      | [] => false
    else if k = 0xE2 then
      match ks with
      | k1 :: k2 :: ks2 =>
        decide (k1 = 0x84) && decide (k2 = 0xAA) && decide (toUpperASCII n = 75)
          && equalFold ns ks2
      | _ => false
    else false
  | _, _ => false

/-- Whether an object key selects the struct field with the JSON name `name`: "an
exact match, but also accepting a case-insensitive match". -/
def matchField (name key : GoString) : Bool := decide (key = name) || equalFold name key

/-- Go `strconv.ParseUint` in base 10 over the remaining digits. -/
def parseDigits : GoString → Nat → Option Nat
  | [], acc => some acc
  | c :: cs, acc => if 48 ≤ c ∧ c ≤ 57 then parseDigits cs (acc * 10 + (c - 48)) else none

/-- Go `strconv.ParseInt(s, 10, 64)`; `none` is a syntax or range error. -/
def ParseInt (s : GoString) : Option Int :=
  match s with
  | [] => none
  | c :: cs =>
    if c = 45 then
      if cs.isEmpty then none
      else match parseDigits cs 0 with
        | some n => if n ≤ 2 ^ 63 then some (-(n : Int)) else none
        | none => none
    else if c = 43 then
      if cs.isEmpty then none
      else match parseDigits cs 0 with
        | some n => if n < 2 ^ 63 then some (n : Int) else none
        | none => none
    else match parseDigits (c :: cs) 0 with
      | some n => if n < 2 ^ 63 then some (n : Int) else none
      | none => none

/-- Storing a JSON value in a Go `string`: a string is stored, `null` leaves the
destination as it is, anything else is an `UnmarshalTypeError` (second component)
and leaves the destination as it is. -/
def storeString (v : JValue) (dst : GoString) : GoString × Bool :=
  match v with
  | .string t => (t, false)
  | .null => (dst, false)
  | _ => (dst, true)

/-- Storing a JSON value in a Go `int` (64 bits). -/
def storeInt (v : JValue) (dst : Int) : Int × Bool :=
  match v with
  | .number lit =>
    match ParseInt lit with
    | some n => (n, false)
    | none => (dst, true)
  | .null => (dst, false)
  | _ => (dst, true)

/-- Storing a JSON value in a `[]string` that is nil (`none`) before: `null` gives
the nil slice, an array a non-nil slice of its elements, each stored into an empty
string. -/
def storeStringSlice (v : JValue) (dst : Option (List GoString)) :
    Option (List GoString) × Bool :=
  match v with
  | .null => (none, false)
  | .array xs => (some (xs.map fun x => (storeString x []).1),
                  xs.any fun x => (storeString x []).2)
  | _ => (dst, true)

/-- Input to an `Execute` call: the `SearchRequest` struct of search_impl.go, with
JSON names `type` and `projectRoot`. -/
structure SearchRequest where
  Type_ : GoString
  ProjectRoot : GoString
  deriving DecidableEq, Repr

/-- Modelled from the spec: the declaration of `IndexedProject` is not among the
sources. The spec gives `{root: string, paths: ordered sequence of string}`; `Paths`
is a Go slice, `none` being the nil slice. -/
structure IndexedProject where
  Root : GoString
  Paths : Option (List GoString)
  deriving DecidableEq, Repr

/-- The `SearchResponse` struct of search_impl.go, JSON names `index` and `error`. -/
structure SearchResponse where
  Index : IndexedProject
  Error : GoString
  deriving DecidableEq, Repr

/-- The `ErrorResponse` struct of search_impl.go, JSON names `errorCode` and
`error`. -/
structure ErrorResponse where
  ErrorCode : Int
  Error : GoString
  deriving DecidableEq, Repr

/-- What `json.Unmarshal` can do other than succeed: return a `SyntaxError`, return
an `UnmarshalTypeError`, or panic with `phasePanicMsg`. -/
inductive UnmarshalFailure where
  | SyntaxError
  | UnmarshalTypeError
  | phasePanic
  deriving DecidableEq, Repr

/-- Go `decodeState.object` for a `SearchRequest`: the members in document order,
each stored in the field its key selects, other keys skipped; `e` is whether an
`UnmarshalTypeError` has been saved. -/
def objectSearchRequest : List (GoString × JValue) → SearchRequest → Bool → SearchRequest × Bool
  | [], r, e => (r, e)
  | (k, v) :: ms, r, e =>
    if matchField (str "type") k then
      objectSearchRequest ms { r with Type_ := (storeString v r.Type_).1 }
        (e || (storeString v r.Type_).2)
    else if matchField (str "projectRoot") k then
      objectSearchRequest ms { r with ProjectRoot := (storeString v r.ProjectRoot).1 }
        (e || (storeString v r.ProjectRoot).2)
    else objectSearchRequest ms r e

/-- Storing a JSON value in a `SearchRequest`. -/
def storeSearchRequest (v : JValue) (dst : SearchRequest) : SearchRequest × Bool :=
  match v with
  | .object ms => objectSearchRequest ms dst false
  | .null => (dst, false)
  | _ => (dst, true)

/-- The call `json.Unmarshal([]byte(req), &searchRequest)` of `Execute`, the
destination being the zero `SearchRequest`. -/
def UnmarshalSearchRequest (data : GoString) : Except UnmarshalFailure SearchRequest :=
  match jsonParse data with
  | .error .scanError => .error .SyntaxError
  | .error .phasePanic => .error .phasePanic
  | .ok v =>
    if (storeSearchRequest v { Type_ := [], ProjectRoot := [] }).2 then .error .UnmarshalTypeError
    else .ok (storeSearchRequest v { Type_ := [], ProjectRoot := [] }).1

/-- Go `decodeState.object` for an `IndexedProject` (JSON names `root`, `paths`). -/
def objectIndexedProject : List (GoString × JValue) → IndexedProject → Bool → IndexedProject × Bool
  | [], p, e => (p, e)
  | (k, v) :: ms, p, e =>
    if matchField (str "root") k then
      objectIndexedProject ms { p with Root := (storeString v p.Root).1 }
        (e || (storeString v p.Root).2)
    else if matchField (str "paths") k then
      objectIndexedProject ms { p with Paths := (storeStringSlice v p.Paths).1 }
        (e || (storeStringSlice v p.Paths).2)
    else objectIndexedProject ms p e

/-- Storing a JSON value in an `IndexedProject`. -/
def storeIndexedProject (v : JValue) (dst : IndexedProject) : IndexedProject × Bool :=
  match v with
  | .object ms => objectIndexedProject ms dst false
  | .null => (dst, false)
  | _ => (dst, true)

/-- Go `decodeState.object` for a `SearchResponse`. -/
def objectSearchResponse : List (GoString × JValue) → SearchResponse → Bool → SearchResponse × Bool
  | [], r, e => (r, e)
  | (k, v) :: ms, r, e =>
    if matchField (str "index") k then
      objectSearchResponse ms { r with Index := (storeIndexedProject v r.Index).1 }
        (e || (storeIndexedProject v r.Index).2)
    else if matchField (str "error") k then
      objectSearchResponse ms { r with Error := (storeString v r.Error).1 }
        (e || (storeString v r.Error).2)
    else objectSearchResponse ms r e

/-- How a caller reads a response as a `SearchResponse`: `json.Unmarshal` into the
zero value (for documents that do not repeat the `paths` key, as is every document
written by `json.Marshal`). -/
def UnmarshalSearchResponse (data : GoString) : Except UnmarshalFailure SearchResponse :=
  match jsonParse data with
  | .error .scanError => .error .SyntaxError
  | .error .phasePanic => .error .phasePanic
  | .ok v =>
    match v with
    | .object ms =>
      if (objectSearchResponse ms ⟨⟨[], none⟩, []⟩ false).2 then .error .UnmarshalTypeError
      else .ok (objectSearchResponse ms ⟨⟨[], none⟩, []⟩ false).1
    | .null => .ok ⟨⟨[], none⟩, []⟩
    | _ => .error .UnmarshalTypeError

/-- Go `decodeState.object` for an `ErrorResponse`. -/
def objectErrorResponse : List (GoString × JValue) → ErrorResponse → Bool → ErrorResponse × Bool
  | [], r, e => (r, e)
  | (k, v) :: ms, r, e =>
    if matchField (str "errorCode") k then
      objectErrorResponse ms { r with ErrorCode := (storeInt v r.ErrorCode).1 }
        (e || (storeInt v r.ErrorCode).2)
    else if matchField (str "error") k then
      objectErrorResponse ms { r with Error := (storeString v r.Error).1 }
        (e || (storeString v r.Error).2)
    else objectErrorResponse ms r e

/-- How a caller reads a response as an `ErrorResponse`: `json.Unmarshal` into the
zero value. -/
def UnmarshalErrorResponse (data : GoString) : Except UnmarshalFailure ErrorResponse :=
  match jsonParse data with
  | .error .scanError => .error .SyntaxError
  | .error .phasePanic => .error .phasePanic
  | .ok v =>
    match v with
    | .object ms =>
      if (objectErrorResponse ms ⟨0, []⟩ false).2 then .error .UnmarshalTypeError
      else .ok (objectErrorResponse ms ⟨0, []⟩ false).1
    | .null => .ok ⟨0, []⟩
    | _ => .error .UnmarshalTypeError

/-- The keys of the JSON object that `data` is, in document order; `none` when
`data` is not a JSON object. -/
def objectKeys (data : GoString) : Option (List GoString) :=
  match jsonParse data with
  | .ok (.object ms) => some (ms.map Prod.fst)
  | _ => none

/-! ## encoding/json: Marshal of the plugin's structs -/

/-- An error returned by `json.Marshal` (`UnsupportedTypeError`,
`UnsupportedValueError`, `MarshalerError`). -/
inductive MarshalError where
  | mk
  deriving DecidableEq, Repr

/-- `json.Marshal(&resp)` for an `ErrorResponse`. -/
def MarshalErrorResponse (r : ErrorResponse) : Except MarshalError GoString :=
  .ok (str "\x7b\"errorCode\":" ++ FormatInt r.ErrorCode ++ str ",\"error\":"
    ++ appendString r.Error ++ str "\x7d")

/-- The elements of a non-empty `[]string` after the first, each preceded by a
comma, then the closing bracket. -/
def marshalArrayTail : List GoString → GoString
  | [] => [93]
  | x :: xs => 44 :: (appendString x ++ marshalArrayTail xs)

/-- Go `json.sliceEncoder` for a `[]string`: `null` for the nil slice, otherwise the
elements between brackets. -/
def marshalStringSlice : Option (List GoString) → GoString
  | none => str "null"
  | some [] => str "[]"
  | some (x :: xs) => 91 :: (appendString x ++ marshalArrayTail xs)

/-- `json.Marshal` of an `IndexedProject`. -/
def marshalIndexedProject (p : IndexedProject) : GoString :=
  str "\x7b\"root\":" ++ appendString p.Root ++ str ",\"paths\":"
    ++ marshalStringSlice p.Paths ++ str "\x7d"

/-- `json.Marshal(&response)` for a `SearchResponse`. -/
def MarshalSearchResponse (r : SearchResponse) : Except MarshalError GoString :=
  .ok (str "\x7b\"index\":" ++ marshalIndexedProject r.Index ++ str ",\"error\":"
    ++ appendString r.Error ++ str "\x7d")

/-- `json.Marshal` of a `SearchRequest`, what a caller of the plugin writes. -/
def MarshalSearchRequest (r : SearchRequest) : GoString :=
  str "\x7b\"type\":" ++ appendString r.Type_ ++ str ",\"projectRoot\":"
    ++ appendString r.ProjectRoot ++ str "\x7d"

/-- The encoding convention of the plugin boundary applied to a request:
`json.Marshal`, then `url.QueryEscape`. -/
def encodeSearchRequest (r : SearchRequest) : GoString :=
  QueryEscape (MarshalSearchRequest r)

/-- Decoding a request the way `Execute` does: `url.QueryUnescape`, then
`json.Unmarshal` into a `SearchRequest`; `none` when either step fails. -/
def decodeSearchRequest (s : GoString) : Option SearchRequest :=
  match QueryUnescape s with
  | .error _ => none
  | .ok req =>
    match UnmarshalSearchRequest req with
    | .ok r => some r
    | .error _ => none

/-! ## search_impl.go -/

/-- The `BasicSearch` struct of search_impl.go: the registry of indexed projects, a
Go map from project root to `IndexedProject`. The logger and the file watcher are
left out; logging has no effect on what the methods return. -/
structure BasicSearch where
  projects : List (GoString × IndexedProject)

/-- A Go panic that ends the call: the `panic(err)` of `errorResponse`, the
`panic(phasePanicMsg)` of the JSON decoder, or a nil dereference. -/
inductive GoPanic where
  | marshalError
  | phasePanic
  | nilDereference
  deriving DecidableEq, Repr

/-- What `GetFiles` returns, a `(*IndexedProject, error)` pair: the project pointer
(`none` is nil) and the error (`none` is nil, otherwise its text). -/
abbrev GetFilesResult := Option IndexedProject × Option GoString

/-- The method `errorResponse` of search_impl.go. -/
def errorResponse (code : Int) (message : GoString) : Except GoPanic GoString :=
  match MarshalErrorResponse { ErrorCode := code, Error := message } with
  | .error _ => .error .marshalError
  | .ok bytes => .ok (QueryEscape bytes)

/-- The method `searchResponse` of search_impl.go. -/
def searchResponse (index : Option IndexedProject) : Except GoPanic GoString :=
  let response : SearchResponse :=
    match index with
    | none => { Index := { Root := [], Paths := some [] },
                Error := str "No results. See logs for further details." }
    | some p => { Index := p, Error := [] }
  match MarshalSearchResponse response with
  | .error _ => errorResponse 500 (str "Error writing search response")
  | .ok bytes => .ok (QueryEscape bytes)

/-- The method `Execute` of search_impl.go. `GetFiles` is a method of `BasicSearch`
whose body is not among the sources; it is a parameter. -/
def Execute (GetFiles : BasicSearch → GoString → GetFilesResult) (g : BasicSearch)
    (encodedReq : GoString) : Except GoPanic GoString :=
  match QueryUnescape encodedReq with
  | .error _ => errorResponse 500 (str "Could not query decode request.")
  | .ok req =>
    match UnmarshalSearchRequest req with
    | .error .phasePanic => .error .phasePanic
    | .error _ => errorResponse 400 (str "Invalid request.")
    | .ok searchRequest =>
      if searchRequest.Type_ ≠ str "files" then
        errorResponse 404 (str "Unknown request type.")
      else
        match GetFiles g searchRequest.ProjectRoot with
        | (_, some _) => errorResponse 500 (str "Error retrieving files.")
        | (proj, none) => searchResponse proj

/-- Modelled from the spec: the plugin package that declares `IProcessProjectReq`
is not among the sources. The spec gives `ProcessProjectRequest: {path: string}`. -/
structure ProcessProjectReq where
  path : GoString
  deriving DecidableEq, Repr

/-- A goroutine started by a `go` statement: here only `go g.Index(req)`, with the
request pointer it was given. -/
inductive Goroutine where
  | Index (req : Option (Option ProcessProjectReq))
  deriving DecidableEq, Repr

/-- The method `ProcessProject` of search_impl.go. The argument is a pointer
(`none` is nil) to an interface value (`none` is the nil interface);
`(*req).Path()` dereferences both. The result is the returned error (`none` is nil)
and the goroutines started. -/
def ProcessProject (_g : BasicSearch) (req : Option (Option ProcessProjectReq)) :
    Except GoPanic (Option GoString × List Goroutine) :=
  match req with
  | none => .error .nilDereference
  | some none => .error .nilDereference
  | some (some _) => .ok (none, [Goroutine.Index req])

/-! ## Definitions used to state the properties -/

/-- The JSON value `Marshal` writes for a `[]string`, as the scanner reads it back. -/
def sliceValue : Option (List GoString) → JValue
  | none => .null
  | some l => .array (l.map fun x => .string (coerceUTF8 x))

/-- Each string of a project with invalid bytes replaced by U+FFFD. -/
def coerceProject (p : IndexedProject) : IndexedProject :=
  { Root := coerceUTF8 p.Root, Paths := p.Paths.map (List.map coerceUTF8) }

/-- Whether every string of a project, its root and each of its paths, is well-formed
UTF-8. -/
def validProject (p : IndexedProject) : Bool :=
  ValidString p.Root &&
    match p.Paths with
    | none => true
    | some l => l.all ValidString

/-- How a caller reads a response string as an `ErrorResponse`: `url.QueryUnescape`,
then `json.Unmarshal`; `none` when either step fails. -/
def decodeErrorResponse (out : GoString) : Option ErrorResponse :=
  match QueryUnescape out with
  | .error _ => none
  | .ok txt =>
    match UnmarshalErrorResponse txt with
    | .ok e => some e
    | .error _ => none

/-- How a caller reads a response string as a `SearchResponse`: `url.QueryUnescape`,
then `json.Unmarshal`; `none` when either step fails. -/
def decodeSearchResponse (out : GoString) : Option SearchResponse :=
  match QueryUnescape out with
  | .error _ => none
  | .ok txt =>
    match UnmarshalSearchResponse txt with
    | .ok r => some r
    | .error _ => none

/-- The keys of the JSON object a response string unescapes to; `none` when it does
not unescape or is not a JSON object. -/
def responseKeys (out : GoString) : Option (List GoString) :=
  match QueryUnescape out with
  | .error _ => none
  | .ok txt => objectKeys txt

/-- A registry lookup used in examples: the root `/tmp/proj` is indexed with two
files, any other root is an error. -/
def sampleGetFiles : BasicSearch → GoString → GetFilesResult := fun _ root =>
  if root = str "/tmp/proj" then
    (some { Root := str "/tmp/proj",
            Paths := some [str "/tmp/proj/a.txt", str "/tmp/proj/b/c.txt"] }, none)
  else (none, some (str "project not found"))

/-- A registry lookup used in examples: it returns, for every root, a project one of
whose paths is the single byte 0xFF, a file name that is not UTF-8. -/
def latin1GetFiles : BasicSearch → GoString → GetFilesResult := fun _ _ =>
  (some { Root := str "/tmp/proj", Paths := some [[0xFF]] }, none)

/-- What a caller reads as an `ErrorResponse` from the result of `Execute`; `none`
when the call panicked or the string returned does not decode. -/
def decodedError (r : Except GoPanic GoString) : Option ErrorResponse :=
  match r with
  | .ok out => decodeErrorResponse out
  | .error _ => none

/-- What a caller reads as a `SearchResponse` from the result of `Execute` or of
`searchResponse`; `none` when the call panicked or the string does not decode. -/
def decodedSearch (r : Except GoPanic GoString) : Option SearchResponse :=
  match r with
  | .ok out => decodeSearchResponse out
  | .error _ => none

/-- Whether a JSON value can be stored in a Go string field: a string or `null`. -/
def fitsString : JValue → Bool
  | .string _ => true
  | .null => true
  | _ => false

/-! ## The invariant of the scanner -/

/-- The text between the quotes of a string literal is made of whole tokens: a plain
byte (not a quote, a backslash or a control byte), a two-byte escape, or `\u` with
four hexadecimal digits. -/
def escOK : GoString → Bool
  | [] => true
  | c :: s =>
    if c = 92 then
      match s with
      | [] => false
      | e :: s1 =>
        if e = 98 ∨ e = 102 ∨ e = 110 ∨ e = 114 ∨ e = 116 ∨ e = 92 ∨ e = 47 ∨ e = 34 then
          escOK s1
        else if e = 117 then
          match s1 with
          | a :: b :: c1 :: d :: s2 => ishex a && ishex b && ishex c1 && ishex d && escOK s2
          | _ => false
        else false
    else if c = 34 ∨ c < 32 then false
    else escOK s

/-- Whether a stack entry is `parseObjectKey`. -/
def isKeyState : ParseState → Bool
  | .parseObjectKey _ => true
  | _ => false

/-- No entry of the stack is `parseObjectKey`. -/
def noKey (ps : List ParseState) : Prop := ∀ p ∈ ps, isKeyState p = false

/-- Whether a JSON value is a string. -/
def isStringValue : JValue → Bool
  | .string _ => true
  | _ => false

/-- What holds of every state the scanner reaches: only the innermost stack entry can
be `parseObjectKey`; inside a string literal the bytes read so far are an opening
quote and whole tokens, plus the begun escape; a value completed under
`parseObjectKey` is a string. -/
def ScanInv (s : Scanner) : Prop :=
  noKey s.parseState.tail ∧
  match s.step with
  | .BeginStringOrEmpty => True
  | .BeginString => True
  | .EndTop _ => True
  | .InString => ∃ body, s.lit = 34 :: body ∧ escOK body = true
  | .InStringEsc => ∃ body, s.lit = 34 :: (body ++ [92]) ∧ escOK body = true
  | .InStringEscU => ∃ body, s.lit = 34 :: (body ++ [92, 117]) ∧ escOK body = true
  | .InStringEscU1 => ∃ body a, s.lit = 34 :: (body ++ [92, 117, a]) ∧ ishex a = true
      ∧ escOK body = true
  | .InStringEscU12 => ∃ body a b, s.lit = 34 :: (body ++ [92, 117, a, b]) ∧ ishex a = true
      ∧ ishex b = true ∧ escOK body = true
  | .InStringEscU123 => ∃ body a b c, s.lit = 34 :: (body ++ [92, 117, a, b, c])
      ∧ ishex a = true ∧ ishex b = true ∧ ishex c = true ∧ escOK body = true
  | .EndValue v => noKey s.parseState ∨ isStringValue v = true
  | _ => noKey s.parseState

/-! ## Lemmas -/

/-! ### net/url: unescaping an escaped string -/

theorem upperhex_ishex (n : Nat) (h : n < 16) : ishex (upperhex n) = true := by
  interval_cases n <;> decide

theorem upperhex_unhex (n : Nat) (h : n < 16) : unhex (upperhex n) = n := by
  interval_cases n <;> decide

theorem unescapeCheck_cons_ne (c : Nat) (s : GoString) (h : c ≠ 37) :
    unescapeCheck (c :: s) = unescapeCheck s := by
  conv_lhs => unfold unescapeCheck
  simp [h]

theorem unescapeCheck_percent (a b : Nat) (s : GoString) (ha : ishex a = true)
    (hb : ishex b = true) : unescapeCheck (37 :: a :: b :: s) = unescapeCheck s := by
  conv_lhs => unfold unescapeCheck
  simp [ha, hb]

theorem unescapeBuild_cons_ne (c : Nat) (s : GoString) (h : c ≠ 37) (h2 : c ≠ 43) :
    unescapeBuild (c :: s) = c :: unescapeBuild s := by
  conv_lhs => unfold unescapeBuild
  simp [h, h2]

theorem unescapeBuild_plus (s : GoString) :
    unescapeBuild (43 :: s) = 32 :: unescapeBuild s := by
  conv_lhs => unfold unescapeBuild
  simp

theorem unescapeBuild_percent (a b : Nat) (s : GoString) :
    unescapeBuild (37 :: a :: b :: s) = (unhex a * 16 + unhex b) :: unescapeBuild s := by
  conv_lhs => unfold unescapeBuild
  simp

theorem unescapeCheck_QueryEscape (s : GoString) (h : ∀ b ∈ s, b < 256) :
    unescapeCheck (QueryEscape s) = none := by
  induction s with
  | nil => rfl
  | cons c s ih =>
    have hc : c < 256 := h c (List.mem_cons_self _ _)
    have ih1 := ih (fun b hb => h b (List.mem_cons_of_mem _ hb))
    unfold QueryEscape
    by_cases h32 : c = 32
    · simp only [h32, if_true]
      rw [unescapeCheck_cons_ne _ _ (by decide)]; exact ih1
    · simp only [h32, if_false]
      by_cases hs : shouldEscape c = true
      · simp only [hs, if_true]
        rw [unescapeCheck_percent _ _ _ (upperhex_ishex (c / 16) (by omega))
          (upperhex_ishex (c % 16) (by omega))]
        exact ih1
      · have h37 : c ≠ 37 := by
          intro h37; apply hs; rw [h37]; decide
        simp only [hs]
        rw [if_neg (by simp), unescapeCheck_cons_ne _ _ h37]; exact ih1

theorem unescapeBuild_QueryEscape (s : GoString) (h : ∀ b ∈ s, b < 256) :
    unescapeBuild (QueryEscape s) = s := by
  induction s with
  | nil => rfl
  | cons c s ih =>
    have hc : c < 256 := h c (List.mem_cons_self _ _)
    have ih1 := ih (fun b hb => h b (List.mem_cons_of_mem _ hb))
    unfold QueryEscape
    by_cases h32 : c = 32
    · simp only [h32, if_true]
      rw [unescapeBuild_plus, ih1]
    · simp only [h32, if_false]
      by_cases hs : shouldEscape c = true
      · simp only [hs, if_true]
        rw [unescapeBuild_percent, upperhex_unhex (c / 16) (by omega),
          upperhex_unhex (c % 16) (by omega), ih1]
        congr 1
        omega
      · have h37 : c ≠ 37 := by
          intro h37; apply hs; rw [h37]; decide
        have h43 : c ≠ 43 := by
          intro h43; apply hs; rw [h43]; decide
        simp only [hs]
        rw [if_neg (by simp), unescapeBuild_cons_ne _ _ h37 h43, ih1]

/-- Unescaping an escaped byte string gives the string back. -/
theorem QueryUnescape_QueryEscape (s : GoString) (h : ∀ b ∈ s, b < 256) :
    QueryUnescape (QueryEscape s) = .ok s := by
  simp [QueryUnescape, unescapeCheck_QueryEscape s h, unescapeBuild_QueryEscape s h]

/-! ### unicode/utf8: what DecodeRune returns -/

theorem DecodeRune_ascii (b : Nat) (rest : GoString) (hb : b < 0x80) :
    DecodeRune (b :: rest) = (b, 1) := by
  simp [DecodeRune, hb]

theorem firstInfo_none (b : Nat) (h : b < 0xC2 ∨ 0xF4 < b) : firstInfo b = none := by
  unfold firstInfo
  split_ifs <;> first | (exfalso; omega) | rfl

theorem firstInfo_two (b : Nat) (h1 : 0xC2 ≤ b) (h2 : b ≤ 0xDF) :
    firstInfo b = some (2, 0x80, 0xBF) := by
  unfold firstInfo
  rw [if_pos ⟨h1, h2⟩]

theorem firstInfo_three (b : Nat) (h1 : 0xE0 ≤ b) (h2 : b ≤ 0xEF) :
    firstInfo b = some (3, if b = 0xE0 then 0xA0 else 0x80, if b = 0xED then 0x9F else 0xBF) := by
  unfold firstInfo
  split_ifs <;> first | (exfalso; omega) | rfl

theorem firstInfo_four (b : Nat) (h1 : 0xF0 ≤ b) (h2 : b ≤ 0xF4) :
    firstInfo b = some (4, if b = 0xF0 then 0x90 else 0x80, if b = 0xF4 then 0x8F else 0xBF) := by
  unfold firstInfo
  split_ifs <;> first | (exfalso; omega) | rfl

theorem DecodeRune_invalid_lead (b : Nat) (rest : GoString) (hb : 0x80 ≤ b)
    (h : b < 0xC2 ∨ 0xF4 < b) : DecodeRune (b :: rest) = (RuneError, 1) := by
  have hb2 : ¬ b < 0x80 := by omega
  simp only [DecodeRune, hb2, if_false, firstInfo_none b h]

theorem DecodeRune_two (b b1 : Nat) (t : GoString) (h1 : 0xC2 ≤ b) (h2 : b ≤ 0xDF) :
    DecodeRune (b :: b1 :: t) =
      if 0x80 ≤ b1 ∧ b1 ≤ 0xBF then ((b % 32) * 64 + b1 % 64, 2) else (RuneError, 1) := by
  have hb2 : ¬ b < 0x80 := by omega
  simp only [DecodeRune, hb2, if_false, firstInfo_two b h1 h2, List.length_cons,
    List.getD_cons_zero]
  split_ifs <;> first | (exfalso; omega) | rfl

theorem DecodeRune_three (b b1 b2 : Nat) (t : GoString) (h1 : 0xE0 ≤ b) (h2 : b ≤ 0xEF) :
    DecodeRune (b :: b1 :: b2 :: t) =
      if (if b = 0xE0 then 0xA0 else 0x80) ≤ b1 ∧ b1 ≤ (if b = 0xED then 0x9F else 0xBF)
          ∧ 0x80 ≤ b2 ∧ b2 ≤ 0xBF then
        ((b % 16) * 4096 + (b1 % 64) * 64 + b2 % 64, 3)
      else (RuneError, 1) := by
  have hb2 : ¬ b < 0x80 := by omega
  simp only [DecodeRune, hb2, if_false, firstInfo_three b h1 h2, List.length_cons,
    List.getD_cons_zero, List.getD_cons_succ]
  split_ifs <;> first | (exfalso; omega) | rfl

theorem DecodeRune_four (b b1 b2 b3 : Nat) (t : GoString) (h1 : 0xF0 ≤ b) (h2 : b ≤ 0xF4) :
    DecodeRune (b :: b1 :: b2 :: b3 :: t) =
      if (if b = 0xF0 then 0x90 else 0x80) ≤ b1 ∧ b1 ≤ (if b = 0xF4 then 0x8F else 0xBF)
          ∧ 0x80 ≤ b2 ∧ b2 ≤ 0xBF ∧ 0x80 ≤ b3 ∧ b3 ≤ 0xBF then
        ((b % 8) * 262144 + (b1 % 64) * 4096 + (b2 % 64) * 64 + b3 % 64, 4)
      else (RuneError, 1) := by
  have hb2 : ¬ b < 0x80 := by omega
  simp only [DecodeRune, hb2, if_false, firstInfo_four b h1 h2, List.length_cons,
    List.getD_cons_zero, List.getD_cons_succ]
  split_ifs <;> first | (exfalso; omega) | rfl

theorem DecodeRune_short (b : Nat) (rest : GoString) (hb : 0x80 ≤ b)
    (h : (0xC2 ≤ b ∧ rest.length < 1) ∨ (0xE0 ≤ b ∧ rest.length < 2)
      ∨ (0xF0 ≤ b ∧ rest.length < 3)) : DecodeRune (b :: rest) = (RuneError, 1) := by
  have hb2 : ¬ b < 0x80 := by omega
  by_cases hx : 0xF4 < b
  · exact DecodeRune_invalid_lead b rest hb (Or.inr hx)
  · by_cases h2 : b ≤ 0xDF
    · simp only [DecodeRune, hb2, if_false, firstInfo_two b (by omega) h2]
      rw [if_pos (by omega)]
    · by_cases h3 : b ≤ 0xEF
      · simp only [DecodeRune, hb2, if_false, firstInfo_three b (by omega) h3]
        rw [if_pos (by omega)]
      · simp only [DecodeRune, hb2, if_false, firstInfo_four b (by omega) (by omega)]
        rw [if_pos (by omega)]

theorem EncodeRune_two (b b1 : Nat) (h1 : 0xC2 ≤ b) (h2 : b ≤ 0xDF) (h3 : 0x80 ≤ b1)
    (h4 : b1 ≤ 0xBF) : EncodeRune ((b % 32) * 64 + b1 % 64) = [b, b1] := by
  unfold EncodeRune
  rw [if_neg (by omega), if_pos (by omega)]
  have e1 : 0xC0 + ((b % 32) * 64 + b1 % 64) / 64 = b := by omega
  have e2 : 0x80 + ((b % 32) * 64 + b1 % 64) % 64 = b1 := by omega
  rw [e1, e2]

theorem EncodeRune_three (b b1 b2 : Nat) (h1 : 0xE0 ≤ b) (h2 : b ≤ 0xEF)
    (h3 : (if b = 0xE0 then 0xA0 else 0x80) ≤ b1) (h4 : b1 ≤ (if b = 0xED then 0x9F else 0xBF))
    (h5 : 0x80 ≤ b2) (h6 : b2 ≤ 0xBF) :
    EncodeRune ((b % 16) * 4096 + (b1 % 64) * 64 + b2 % 64) = [b, b1, b2] := by
  have h3a : 0x80 ≤ b1 := by split_ifs at h3 <;> omega
  have h4a : b1 ≤ 0xBF := by split_ifs at h4 <;> omega
  have h3b : b = 0xE0 → 0xA0 ≤ b1 := by intro h; rw [if_pos h] at h3; exact h3
  have h4b : b = 0xED → b1 ≤ 0x9F := by intro h; rw [if_pos h] at h4; exact h4
  unfold EncodeRune
  rw [if_neg (by omega), if_neg (by omega), if_neg (by omega), if_pos (by omega)]
  have e1 : 0xE0 + ((b % 16) * 4096 + (b1 % 64) * 64 + b2 % 64) / 4096 = b := by omega
  have e2 : 0x80 + ((b % 16) * 4096 + (b1 % 64) * 64 + b2 % 64) / 64 % 64 = b1 := by omega
  have e3 : 0x80 + ((b % 16) * 4096 + (b1 % 64) * 64 + b2 % 64) % 64 = b2 := by omega
  rw [e1, e2, e3]

theorem EncodeRune_four (b b1 b2 b3 : Nat) (h1 : 0xF0 ≤ b) (h2 : b ≤ 0xF4)
    (h3 : (if b = 0xF0 then 0x90 else 0x80) ≤ b1) (h4 : b1 ≤ (if b = 0xF4 then 0x8F else 0xBF))
    (h5 : 0x80 ≤ b2) (h6 : b2 ≤ 0xBF) (h7 : 0x80 ≤ b3) (h8 : b3 ≤ 0xBF) :
    EncodeRune ((b % 8) * 262144 + (b1 % 64) * 4096 + (b2 % 64) * 64 + b3 % 64)
      = [b, b1, b2, b3] := by
  have h3a : 0x80 ≤ b1 := by split_ifs at h3 <;> omega
  have h4a : b1 ≤ 0xBF := by split_ifs at h4 <;> omega
  have h3b : b = 0xF0 → 0x90 ≤ b1 := by intro h; rw [if_pos h] at h3; exact h3
  have h4b : b = 0xF4 → b1 ≤ 0x8F := by intro h; rw [if_pos h] at h4; exact h4
  unfold EncodeRune
  rw [if_neg (by omega), if_neg (by omega), if_neg (by omega), if_neg (by omega)]
  have e1 : 0xF0 + ((b % 8) * 262144 + (b1 % 64) * 4096 + (b2 % 64) * 64 + b3 % 64) / 262144
      = b := by omega
  have e2 : 0x80 + ((b % 8) * 262144 + (b1 % 64) * 4096 + (b2 % 64) * 64 + b3 % 64) / 4096 % 64
      = b1 := by omega
  have e3 : 0x80 + ((b % 8) * 262144 + (b1 % 64) * 4096 + (b2 % 64) * 64 + b3 % 64) / 64 % 64
      = b2 := by omega
  have e4 : 0x80 + ((b % 8) * 262144 + (b1 % 64) * 4096 + (b2 % 64) * 64 + b3 % 64) % 64
      = b3 := by omega
  rw [e1, e2, e3, e4]

/-- What `DecodeRune` does at a byte that is not ASCII: it reports an invalid byte, or
it reads a well-formed sequence of 2 to 4 bytes, all at least 0x80, which `EncodeRune`
writes back and which decodes the same way whatever follows. -/
theorem DecodeRune_cases (b : Nat) (rest : GoString) (hb : 0x80 ≤ b) :
    DecodeRune (b :: rest) = (RuneError, 1) ∨
    ∃ r n, DecodeRune (b :: rest) = (r, n) ∧ 2 ≤ n ∧ n ≤ rest.length + 1
      ∧ EncodeRune r = (b :: rest).take n
      ∧ (∀ x ∈ (b :: rest).take n, 0x80 ≤ x ∧ x < 256)
      ∧ (∀ t, DecodeRune ((b :: rest).take n ++ t) = (r, n))
      ∧ 0x80 ≤ r := by
  by_cases hx : b < 0xC2 ∨ 0xF4 < b
  · exact Or.inl (DecodeRune_invalid_lead b rest hb hx)
  · by_cases h2 : b ≤ 0xDF
    · rcases rest with _ | ⟨b1, t⟩
      · exact Or.inl (DecodeRune_short b [] hb (Or.inl ⟨by omega, by simp⟩))
      · by_cases hc : 0x80 ≤ b1 ∧ b1 ≤ 0xBF
        · refine Or.inr ⟨(b % 32) * 64 + b1 % 64, 2, ?_, by omega, by simp, ?_, ?_, ?_, ?_⟩
          · rw [DecodeRune_two b b1 t (by omega) h2, if_pos hc]
          · rw [EncodeRune_two b b1 (by omega) h2 hc.1 hc.2]; rfl
          · intro x hxm
            simp only [List.take_succ_cons, List.take_zero, List.mem_cons, List.mem_nil_iff,
              or_false] at hxm
            rcases hxm with rfl | rfl <;> omega
          · intro t2
            show DecodeRune (b :: b1 :: t2) = _
            rw [DecodeRune_two b b1 t2 (by omega) h2, if_pos hc]
          · omega
        · left
          rw [DecodeRune_two b b1 t (by omega) h2, if_neg hc]
    · by_cases h3 : b ≤ 0xEF
      · rcases rest with _ | ⟨b1, _ | ⟨b2, t⟩⟩
        · exact Or.inl (DecodeRune_short b [] hb (Or.inr (Or.inl ⟨by omega, by simp⟩)))
        · exact Or.inl (DecodeRune_short b [b1] hb (Or.inr (Or.inl ⟨by omega, by simp⟩)))
        · by_cases hc : (if b = 0xE0 then 0xA0 else 0x80) ≤ b1
              ∧ b1 ≤ (if b = 0xED then 0x9F else 0xBF) ∧ 0x80 ≤ b2 ∧ b2 ≤ 0xBF
          · have h3a : 0x80 ≤ b1 := by have := hc.1; split_ifs at this <;> omega
            have h4a : b1 ≤ 0xBF := by have := hc.2.1; split_ifs at this <;> omega
            have h3b : b = 0xE0 → 0xA0 ≤ b1 := by
              intro h; have := hc.1; rw [if_pos h] at this; exact this
            refine Or.inr ⟨(b % 16) * 4096 + (b1 % 64) * 64 + b2 % 64, 3, ?_, by omega, by simp, ?_, ?_, ?_, ?_⟩
            · rw [DecodeRune_three b b1 b2 t (by omega) h3, if_pos hc]
            · rw [EncodeRune_three b b1 b2 (by omega) h3 hc.1 hc.2.1 hc.2.2.1 hc.2.2.2]; rfl
            · intro x hxm
              simp only [List.take_succ_cons, List.take_zero, List.mem_cons, List.mem_nil_iff,
                or_false] at hxm
              rcases hxm with rfl | rfl | rfl <;> omega
            · intro t2
              show DecodeRune (b :: b1 :: b2 :: t2) = _
              rw [DecodeRune_three b b1 b2 t2 (by omega) h3, if_pos hc]
            · omega
          · left
            rw [DecodeRune_three b b1 b2 t (by omega) h3, if_neg hc]
      · rcases rest with _ | ⟨b1, _ | ⟨b2, _ | ⟨b3, t⟩⟩⟩
        · exact Or.inl (DecodeRune_short b [] hb (Or.inr (Or.inr ⟨by omega, by simp⟩)))
        · exact Or.inl (DecodeRune_short b [b1] hb (Or.inr (Or.inr ⟨by omega, by simp⟩)))
        · exact Or.inl (DecodeRune_short b [b1, b2] hb (Or.inr (Or.inr ⟨by omega, by simp⟩)))
        · by_cases hc : (if b = 0xF0 then 0x90 else 0x80) ≤ b1
              ∧ b1 ≤ (if b = 0xF4 then 0x8F else 0xBF) ∧ 0x80 ≤ b2 ∧ b2 ≤ 0xBF
              ∧ 0x80 ≤ b3 ∧ b3 ≤ 0xBF
          · have h3a : 0x80 ≤ b1 := by have := hc.1; split_ifs at this <;> omega
            have h4a : b1 ≤ 0xBF := by have := hc.2.1; split_ifs at this <;> omega
            have h3b : b = 0xF0 → 0x90 ≤ b1 := by
              intro h; have := hc.1; rw [if_pos h] at this; exact this
            refine Or.inr ⟨(b % 8) * 262144 + (b1 % 64) * 4096 + (b2 % 64) * 64 + b3 % 64, 4, ?_, by omega, by simp, ?_, ?_, ?_, ?_⟩
            · rw [DecodeRune_four b b1 b2 b3 t (by omega) (by omega), if_pos hc]
            · rw [EncodeRune_four b b1 b2 b3 (by omega) (by omega) hc.1 hc.2.1 hc.2.2.1
                hc.2.2.2.1 hc.2.2.2.2.1 hc.2.2.2.2.2]; rfl
            · intro x hxm
              simp only [List.take_succ_cons, List.take_zero, List.mem_cons, List.mem_nil_iff,
                or_false] at hxm
              rcases hxm with rfl | rfl | rfl | rfl <;> omega
            · intro t2
              show DecodeRune (b :: b1 :: b2 :: b3 :: t2) = _
              rw [DecodeRune_four b b1 b2 b3 t2 (by omega) (by omega), if_pos hc]
            · omega
          · left
            rw [DecodeRune_four b b1 b2 b3 t (by omega) (by omega), if_neg hc]

/-! ### encoding/json: reading back a written string -/

theorem hex_ishex (n : Nat) (h : n < 16) : ishex (hex n) = true := by
  interval_cases n <;> decide

theorem hex_unhex (n : Nat) (h : n < 16) : unhex (hex n) = n := by
  interval_cases n <;> decide

theorem unquoteLoop_nil (f : Nat) : unquoteLoop f [] = some [] := by
  cases f <;> rfl

theorem unquoteLoop_plain (f c : Nat) (s : GoString) (h1 : c ≠ 92) (h2 : c ≠ 34)
    (h3 : 32 ≤ c) (h4 : c < 0x80) :
    unquoteLoop (f + 1) (c :: s) = (unquoteLoop f s).map (c :: ·) := by
  conv_lhs => unfold unquoteLoop
  rw [if_neg h1, if_neg (by omega), if_pos h4]

theorem unquoteLoop_multi (f c : Nat) (s : GoString) (h : 0x80 ≤ c) :
    unquoteLoop (f + 1) (c :: s) =
      (unquoteLoop f (s.drop ((DecodeRune (c :: s)).2 - 1))).map
        (EncodeRune (DecodeRune (c :: s)).1 ++ ·) := by
  conv_lhs => unfold unquoteLoop
  rw [if_neg (by omega), if_neg (by omega), if_neg (by omega)]

theorem unquoteLoop_esc (f e : Nat) (s : GoString) :
    unquoteLoop (f + 1) (92 :: e :: s) =
      if e = 34 ∨ e = 92 ∨ e = 47 ∨ e = 39 then (unquoteLoop f s).map (e :: ·)
      else if e = 98 then (unquoteLoop f s).map (8 :: ·)
      else if e = 102 then (unquoteLoop f s).map (12 :: ·)
      else if e = 110 then (unquoteLoop f s).map (10 :: ·)
      else if e = 114 then (unquoteLoop f s).map (13 :: ·)
      else if e = 116 then (unquoteLoop f s).map (9 :: ·)
      else if e = 117 then
        match getu4 (92 :: e :: s) with
        | none => none
        | some rr =>
          if 0xD800 ≤ rr ∧ rr < 0xE000 then
            match getu4 (s.drop 4) with
            | some rr1 =>
              if utf16DecodeRune rr rr1 ≠ RuneError then
                (unquoteLoop f (s.drop 10)).map (EncodeRune (utf16DecodeRune rr rr1) ++ ·)
              else (unquoteLoop f (s.drop 4)).map (EncodeRune RuneError ++ ·)
            | none => (unquoteLoop f (s.drop 4)).map (EncodeRune RuneError ++ ·)
          else (unquoteLoop f (s.drop 4)).map (EncodeRune rr ++ ·)
      else none := by
  conv_lhs => unfold unquoteLoop
  rw [if_pos rfl]

theorem getu4_hex (a b c d : Nat) (s : GoString) (ha : ishex a = true) (hb : ishex b = true)
    (hc : ishex c = true) (hd : ishex d = true) :
    getu4 (92 :: 117 :: a :: b :: c :: d :: s)
      = some (((unhex a * 16 + unhex b) * 16 + unhex c) * 16 + unhex d) := by
  simp [getu4, ha, hb, hc, hd]

theorem unquoteLoop_u (f a b c d : Nat) (s : GoString) (ha : ishex a = true)
    (hb : ishex b = true) (hc : ishex c = true) (hd : ishex d = true)
    (hs : ¬ (0xD800 ≤ ((unhex a * 16 + unhex b) * 16 + unhex c) * 16 + unhex d
      ∧ ((unhex a * 16 + unhex b) * 16 + unhex c) * 16 + unhex d < 0xE000)) :
    unquoteLoop (f + 1) (92 :: 117 :: a :: b :: c :: d :: s) =
      (unquoteLoop f s).map
        (EncodeRune (((unhex a * 16 + unhex b) * 16 + unhex c) * 16 + unhex d) ++ ·) := by
  rw [unquoteLoop_esc, getu4_hex a b c d s ha hb hc hd]
  simp only [if_neg hs]
  simp

theorem unquoteLoop_escapeByte (f b : Nat) (s : GoString) (h1 : b < 0x80)
    (h2 : htmlSafeSet b = false) :
    unquoteLoop (f + 1) (escapeByte b ++ s) = (unquoteLoop f s).map (b :: ·) := by
  unfold escapeByte
  split_ifs with c1 c2 c3 c4 c5 c6
  · rcases c1 with rfl | rfl <;> simp [unquoteLoop_esc]
  · subst c2; simp [unquoteLoop_esc]
  · subst c3; simp [unquoteLoop_esc]
  · subst c4; simp [unquoteLoop_esc]
  · subst c5; simp [unquoteLoop_esc]
  · subst c6; simp [unquoteLoop_esc]
  · have e48 : ishex 48 = true := by decide
    have u48 : unhex 48 = 0 := by decide
    show unquoteLoop (f + 1) (92 :: 117 :: 48 :: 48 :: hex (b / 16) :: hex (b % 16) :: s) = _
    rw [unquoteLoop_u f 48 48 _ _ s e48 e48 (hex_ishex _ (by omega)) (hex_ishex _ (by omega))]
    · rw [u48, hex_unhex _ (by omega), hex_unhex _ (by omega)]
      have : ((0 * 16 + 0) * 16 + b / 16) * 16 + b % 16 = b := by omega
      rw [this]
      simp [EncodeRune, h1]
    · rw [u48, hex_unhex _ (by omega), hex_unhex _ (by omega)]
      omega

theorem appendStringLoop_cons (fuel b : Nat) (rest : GoString) :
    appendStringLoop (fuel + 1) (b :: rest) =
      if b < 0x80 then
        (if htmlSafeSet b then [b] else escapeByte b) ++ appendStringLoop fuel rest
      else if (DecodeRune (b :: rest)).1 = RuneError ∧ (DecodeRune (b :: rest)).2 = 1 then
        str "\\ufffd" ++ appendStringLoop fuel rest
      else if (DecodeRune (b :: rest)).1 = 0x2028 ∨ (DecodeRune (b :: rest)).1 = 0x2029 then
        [92, 117, 50, 48, 50, hex ((DecodeRune (b :: rest)).1 % 16)]
          ++ appendStringLoop fuel (rest.drop ((DecodeRune (b :: rest)).2 - 1))
      else
        (b :: rest).take (DecodeRune (b :: rest)).2
          ++ appendStringLoop fuel (rest.drop ((DecodeRune (b :: rest)).2 - 1)) := by
  conv_lhs => unfold appendStringLoop

theorem coerceLoop_cons (fuel b : Nat) (rest : GoString) :
    coerceLoop (fuel + 1) (b :: rest) =
      if b < 0x80 then b :: coerceLoop fuel rest
      else if (DecodeRune (b :: rest)).2 = 1 then [0xEF, 0xBF, 0xBD] ++ coerceLoop fuel rest
      else (b :: rest).take (DecodeRune (b :: rest)).2
        ++ coerceLoop fuel (rest.drop ((DecodeRune (b :: rest)).2 - 1)) := by
  conv_lhs => unfold coerceLoop

theorem htmlSafeSet_plain (b : Nat) (h : htmlSafeSet b = true) :
    b ≠ 92 ∧ b ≠ 34 ∧ 32 ≤ b ∧ b < 0x80 := by
  simp only [htmlSafeSet, decide_eq_true_eq] at h
  omega

theorem escapeByte_length_pos (b : Nat) : 1 ≤ (escapeByte b).length := by
  unfold escapeByte
  split_ifs <;> simp

theorem drop_take_append (k : Nat) (l t : List Nat) (h : k ≤ l.length) :
    List.drop k (List.take k l ++ t) = t := by
  induction k generalizing l with
  | zero => simp
  | succ k ih =>
    cases l with
    | nil => simp at h
    | cons a l => simpa using ih l (by simpa using h)

/-- Reading back the text `appendString` writes between the quotes gives the string,
with invalid bytes replaced by U+FFFD. -/
theorem unquoteLoop_appendStringLoop (fuel : Nat) :
    ∀ (s : GoString) (f : Nat), s.length ≤ fuel → (appendStringLoop fuel s).length ≤ f →
      unquoteLoop f (appendStringLoop fuel s) = some (coerceLoop fuel s) := by
  induction fuel with
  | zero =>
    intro s f hs _
    have : s = [] := List.eq_nil_of_length_eq_zero (by omega)
    subst this
    simp [appendStringLoop, coerceLoop, unquoteLoop_nil]
  | succ fuel ih =>
    intro s f hs hf
    rcases s with _ | ⟨b, rest⟩
    · simp [appendStringLoop, coerceLoop, unquoteLoop_nil]
    · have hrest : rest.length ≤ fuel := by simpa using hs
      rw [appendStringLoop_cons] at hf ⊢
      rw [coerceLoop_cons]
      by_cases hb : b < 0x80
      · rw [if_pos hb] at hf ⊢
        rw [if_pos hb]
        by_cases hsafe : htmlSafeSet b = true
        · simp only [hsafe, if_true, List.singleton_append, List.length_cons] at hf ⊢
          obtain ⟨f, rfl⟩ : ∃ f1, f = f1 + 1 := ⟨f - 1, by omega⟩
          obtain ⟨p1, p2, p3, p4⟩ := htmlSafeSet_plain b hsafe
          rw [unquoteLoop_plain f b _ p1 p2 p3 p4, ih rest f hrest (by omega)]
          rfl
        · have hsafe2 : htmlSafeSet b = false := by simpa using hsafe
          simp only [hsafe2, Bool.false_eq_true, if_false, List.length_append] at hf ⊢
          have := escapeByte_length_pos b
          obtain ⟨f, rfl⟩ : ∃ f1, f = f1 + 1 := ⟨f - 1, by omega⟩
          rw [unquoteLoop_escapeByte f b _ hb hsafe2, ih rest f hrest (by omega)]
          rfl
      · rw [if_neg hb] at hf ⊢
        rw [if_neg hb]
        rcases DecodeRune_cases b rest (by omega) with hd | ⟨r, n, hd, hn2, hnl, henc, _, hpre, hr⟩
        · rw [hd] at hf ⊢
          simp only [and_self, if_true, List.length_append] at hf ⊢
          have e1 : str "\\ufffd" = [92, 117, 102, 102, 102, 100] := by decide
          rw [e1] at hf ⊢
          obtain ⟨f, rfl⟩ : ∃ f1, f = f1 + 1 := ⟨f - 1, by simp at hf; omega⟩
          show unquoteLoop (f + 1) (92 :: 117 :: 102 :: 102 :: 102 :: 100 ::
            appendStringLoop fuel rest) = _
          rw [unquoteLoop_u f 102 102 102 100 _ (by decide) (by decide) (by decide) (by decide)
            (by decide), ih rest f hrest (by simp at hf; omega)]
          rfl
        · rw [hd] at hf ⊢
          have hdrop : (rest.drop (n - 1)).length ≤ fuel := by
            rw [List.length_drop]; omega
          have hn1 : ¬ n = 1 := by omega
          simp only [hn1, and_false, if_false] at hf ⊢
          by_cases hls : r = 0x2028 ∨ r = 0x2029
          · rw [if_pos hls] at hf ⊢
            simp only [List.length_append, List.length_cons, List.length_nil] at hf
            obtain ⟨f, rfl⟩ : ∃ f1, f = f1 + 1 := ⟨f - 1, by omega⟩
            show unquoteLoop (f + 1) (92 :: 117 :: 50 :: 48 :: 50 :: hex (r % 16) ::
              appendStringLoop fuel (rest.drop (n - 1))) = _
            have hx : r % 16 < 16 := by omega
            rw [unquoteLoop_u f 50 48 50 _ _ (by decide) (by decide) (by decide)
              (hex_ishex _ hx)]
            · rw [hex_unhex _ hx, ih _ f hdrop (by omega), ← henc]
              have u50 : unhex 50 = 2 := by decide
              have u48 : unhex 48 = 0 := by decide
              rw [u50, u48]
              have : ((2 * 16 + 0) * 16 + 2) * 16 + r % 16 = r := by
                rcases hls with rfl | rfl <;> rfl
              rw [this]
              rfl
            · rw [hex_unhex _ hx]
              have u50 : unhex 50 = 2 := by decide
              have u48 : unhex 48 = 0 := by decide
              rw [u50, u48]
              omega
          · rw [if_neg hls] at hf ⊢
            have htk : (List.take n (b :: rest)).length = n := by
              rw [List.length_take]; simp; omega
            rw [List.length_append, htk] at hf
            obtain ⟨f, rfl⟩ : ∃ f1, f = f1 + 1 := ⟨f - 1, by omega⟩
            have e2 : List.take n (b :: rest) = b :: List.take (n - 1) rest := by
              obtain ⟨m, rfl⟩ : ∃ m, n = m + 1 := ⟨n - 1, by omega⟩
              simp
            have hdec := hpre (appendStringLoop fuel (rest.drop (n - 1)))
            rw [e2] at hdec ⊢
            rw [List.cons_append] at hdec
            rw [List.cons_append, unquoteLoop_multi f b _ (by omega), hdec]
            simp only []
            have e3 : List.drop (n - 1) (List.take (n - 1) rest
                ++ appendStringLoop fuel (List.drop (n - 1) rest))
                = appendStringLoop fuel (List.drop (n - 1) rest) := by
              exact drop_take_append _ _ _ (by omega)
            rw [e3, ih _ f hdrop (by omega), henc, e2]
            rfl

/-! ### encoding/json: the scanner on a written string -/

theorem scanRun_append (s s1 : Scanner) (a b : GoString) (h : scanRun s a = .ok s1) :
    scanRun s (a ++ b) = scanRun s1 b := by
  induction a generalizing s with
  | nil =>
    simp only [scanRun, Except.ok.injEq] at h
    subst h; rfl
  | cons c a ih =>
    simp only [scanRun, List.cons_append] at h ⊢
    cases hc : scanStep s c with
    | error e => rw [hc] at h; cases h
    | ok s2 =>
      rw [hc] at h
      exact ih s2 h

theorem scanRun_cons (s : Scanner) (c : Nat) (cs : GoString) :
    scanRun s (c :: cs) = match scanStep s c with
      | .ok s1 => scanRun s1 cs
      | .error e => .error e := rfl

theorem scanStep_inString_plain (ps : List ParseState) (lit : GoString) (c : Nat)
    (h1 : c ≠ 34) (h2 : c ≠ 92) (h3 : 32 ≤ c) :
    scanStep ⟨.InString, ps, lit⟩ c = .ok ⟨.InString, ps, lit ++ [c]⟩ := by
  simp only [scanStep, if_neg h1, if_neg h2, if_neg (show ¬ c < 32 by omega)]

theorem scanRun_inString_plain (ps : List ParseState) (l lit : GoString)
    (h : ∀ c ∈ l, c ≠ 34 ∧ c ≠ 92 ∧ 32 ≤ c) :
    scanRun ⟨.InString, ps, lit⟩ l = .ok ⟨.InString, ps, lit ++ l⟩ := by
  induction l generalizing lit with
  | nil => simp [scanRun]
  | cons c l ih =>
    obtain ⟨h1, h2, h3⟩ := h c (List.mem_cons_self _ _)
    rw [scanRun_cons, scanStep_inString_plain ps lit c h1 h2 h3]
    simp only []
    rw [ih (lit ++ [c]) (fun x hx => h x (List.mem_cons_of_mem _ hx))]
    simp

theorem scanRun_inString_u (ps : List ParseState) (lit : GoString) (a b c d : Nat)
    (ha : ishex a = true) (hb : ishex b = true) (hc : ishex c = true) (hd : ishex d = true) :
    scanRun ⟨.InString, ps, lit⟩ [92, 117, a, b, c, d]
      = .ok ⟨.InString, ps, lit ++ [92, 117, a, b, c, d]⟩ := by
  simp [scanRun, scanStep, ha, hb, hc, hd]

theorem scanRun_inString_escapeByte (ps : List ParseState) (lit : GoString) (b : Nat)
    (hb : b < 0x80) :
    scanRun ⟨.InString, ps, lit⟩ (escapeByte b) = .ok ⟨.InString, ps, lit ++ escapeByte b⟩ := by
  unfold escapeByte
  split_ifs with c1 c2 c3 c4 c5 c6
  · rcases c1 with rfl | rfl <;> simp [scanRun, scanStep]
  · simp [scanRun, scanStep]
  · simp [scanRun, scanStep]
  · simp [scanRun, scanStep]
  · simp [scanRun, scanStep]
  · simp [scanRun, scanStep]
  · exact scanRun_inString_u ps lit 48 48 _ _ (by decide) (by decide)
      (hex_ishex _ (by omega)) (hex_ishex _ (by omega))

/-- The scanner reads the text `appendString` writes between the quotes as the inside
of a string literal. -/
theorem scanRun_appendStringLoop (ps : List ParseState) (fuel : Nat) :
    ∀ (s lit : GoString),
      scanRun ⟨.InString, ps, lit⟩ (appendStringLoop fuel s)
        = .ok ⟨.InString, ps, lit ++ appendStringLoop fuel s⟩ := by
  induction fuel with
  | zero => intro s lit; simp [appendStringLoop, scanRun]
  | succ fuel ih =>
    intro s lit
    rcases s with _ | ⟨b, rest⟩
    · simp [appendStringLoop, scanRun]
    · rw [appendStringLoop_cons]
      by_cases hb : b < 0x80
      · rw [if_pos hb]
        by_cases hsafe : htmlSafeSet b = true
        · obtain ⟨p1, p2, p3, _⟩ := htmlSafeSet_plain b hsafe
          simp only [hsafe, if_true]
          rw [scanRun_append _ _ _ _ (scanRun_inString_plain ps [b] lit
            (by intro c hc; simp at hc; subst hc; exact ⟨p2, p1, p3⟩)), ih]
          simp
        · have hsafe2 : htmlSafeSet b = false := by simpa using hsafe
          simp only [hsafe2, Bool.false_eq_true, if_false]
          rw [scanRun_append _ _ _ _ (scanRun_inString_escapeByte ps lit b hb), ih]
          simp
      · rw [if_neg hb]
        rcases DecodeRune_cases b rest (by omega) with hd | ⟨r, n, hd, hn2, hnl, henc, hbytes, _, _⟩
        · rw [hd]
          simp only [and_self, if_true]
          have e1 : str "\\ufffd" = [92, 117, 102, 102, 102, 100] := by decide
          rw [e1, scanRun_append _ _ _ _ (scanRun_inString_u ps lit 102 102 102 100
            (by decide) (by decide) (by decide) (by decide)), ih]
          simp
        · rw [hd]
          have hn1 : ¬ n = 1 := by omega
          simp only [hn1, and_false, if_false]
          by_cases hls : r = 0x2028 ∨ r = 0x2029
          · rw [if_pos hls, scanRun_append _ _ _ _ (scanRun_inString_u ps lit 50 48 50 _
              (by decide) (by decide) (by decide) (hex_ishex _ (by omega))), ih]
            simp
          · rw [if_neg hls, scanRun_append _ _ _ _ (scanRun_inString_plain ps _ lit
              (by intro c hc; have := hbytes c hc; omega)), ih]
            simp

/-- Every byte `appendString` writes between the quotes is below 256. -/
theorem appendStringLoop_bytes (fuel : Nat) :
    ∀ (s : GoString), ∀ x ∈ appendStringLoop fuel s, x < 256 := by
  induction fuel with
  | zero => intro s x hx; simp [appendStringLoop] at hx
  | succ fuel ih =>
    intro s x hx
    rcases s with _ | ⟨b, rest⟩
    · simp [appendStringLoop] at hx
    · rw [appendStringLoop_cons] at hx
      by_cases hb : b < 0x80
      · rw [if_pos hb, List.mem_append] at hx
        rcases hx with hx | hx
        · by_cases hsafe : htmlSafeSet b = true
          · simp only [hsafe, if_true, List.mem_singleton] at hx
            omega
          · have hsafe2 : htmlSafeSet b = false := by simpa using hsafe
            simp only [hsafe2, Bool.false_eq_true, if_false] at hx
            unfold escapeByte at hx
            have h1 : hex (b / 16) < 256 := by
              have : b / 16 < 16 := by omega
              interval_cases (b / 16) <;> decide
            have h2 : hex (b % 16) < 256 := by
              have : b % 16 < 16 := by omega
              interval_cases (b % 16) <;> decide
            split_ifs at hx <;> simp at hx <;> omega
        · exact ih rest x hx
      · rw [if_neg hb] at hx
        rcases DecodeRune_cases b rest (by omega) with hd | ⟨r, n, hd, hn2, hnl, henc, hbytes, _, _⟩
        · rw [hd] at hx
          simp only [and_self, if_true, List.mem_append] at hx
          rcases hx with hx | hx
          · have e1 : str "\\ufffd" = [92, 117, 102, 102, 102, 100] := by decide
            rw [e1] at hx
            simp at hx
            omega
          · exact ih rest x hx
        · rw [hd] at hx
          have hn1 : ¬ n = 1 := by omega
          simp only [hn1, and_false, if_false] at hx
          by_cases hls : r = 0x2028 ∨ r = 0x2029
          · rw [if_pos hls, List.mem_append] at hx
            rcases hx with hx | hx
            · have h2 : hex (r % 16) < 256 := by
                have : r % 16 < 16 := by omega
                interval_cases (r % 16) <;> decide
              simp at hx
              omega
            · exact ih _ x hx
          · rw [if_neg hls, List.mem_append] at hx
            rcases hx with hx | hx
            · exact (hbytes x hx).2
            · exact ih _ x hx

/-! ### encoding/json: reading back the marshalled structs -/

theorem unquoteBytes_quoted (body : GoString) :
    unquoteBytes (34 :: (body ++ [34])) = unquoteLoop body.length body := by
  simp [unquoteBytes]

/-- Reading the literal `appendString s` from a state in which an opening quote starts
a string: the scanner ends with the string value, invalid bytes replaced. -/
theorem scanRun_appendString (st : Scanner) (ps : List ParseState) (s : GoString)
    (rest : GoString)
    (h : scanStep st 34 = .ok ⟨.InString, ps, [34]⟩) :
    scanRun st (appendString s ++ rest)
      = scanRun ⟨.EndValue (.string (coerceUTF8 s)), ps, []⟩ rest := by
  unfold appendString
  rw [List.cons_append, scanRun_cons, h]
  simp only []
  rw [List.append_assoc, scanRun_append _ _ _ _ (scanRun_appendStringLoop ps s.length s [34])]
  have hq : unquoteBytes (34 :: (appendStringLoop s.length s ++ [34]))
      = some (coerceUTF8 s) := by
    rw [unquoteBytes_quoted]
    exact unquoteLoop_appendStringLoop s.length s _ (le_refl _) (le_refl _)
  simp only [List.singleton_append, List.cons_append, List.nil_append, scanRun_cons, scanStep,
    if_true, hq]

theorem scanStep_quote_BeginValue (ps : List ParseState) (lit : GoString) :
    scanStep ⟨.BeginValue, ps, lit⟩ 34 = .ok ⟨.InString, ps, [34]⟩ := by
  simp [scanStep, stateBeginValue, isSpace]

theorem scanStep_quote_BeginValueOrEmpty (ps : List ParseState) (lit : GoString) :
    scanStep ⟨.BeginValueOrEmpty, ps, lit⟩ 34 = .ok ⟨.InString, ps, [34]⟩ := by
  simp [scanStep, stateBeginValue, isSpace]

theorem scan_request_open :
    scanRun scanReset (str "\x7b\"type\":")
      = .ok ⟨.BeginValue, [.parseObjectValue [] (str "type")], []⟩ := by
  rfl

theorem scan_request_middle (v : JValue) :
    scanRun ⟨.EndValue v, [.parseObjectValue [] (str "type")], []⟩ (str ",\"projectRoot\":")
      = .ok ⟨.BeginValue, [.parseObjectValue [(str "type", v)] (str "projectRoot")], []⟩ := by
  rfl

theorem scan_request_close (v w : JValue) :
    scanRun ⟨.EndValue w, [.parseObjectValue [(str "type", v)] (str "projectRoot")], []⟩
        (str "\x7d")
      = .ok ⟨.EndTop (.object [(str "type", v), (str "projectRoot", w)]), [], []⟩ := by
  rfl

/-- The JSON value read from a marshalled `SearchRequest`. -/
theorem jsonParse_MarshalSearchRequest (r : SearchRequest) :
    jsonParse (MarshalSearchRequest r)
      = .ok (.object [(str "type", .string (coerceUTF8 r.Type_)),
          (str "projectRoot", .string (coerceUTF8 r.ProjectRoot))]) := by
  unfold jsonParse MarshalSearchRequest
  rw [List.append_assoc, List.append_assoc, List.append_assoc,
    scanRun_append _ _ _ _ scan_request_open,
    scanRun_appendString _ _ _ _ (scanStep_quote_BeginValue _ _),
    scanRun_append _ _ _ _ (scan_request_middle _),
    scanRun_appendString _ _ _ _ (scanStep_quote_BeginValue _ _),
    scan_request_close]
  rfl

/-- Unmarshalling a marshalled request gives the request, up to the replacement of
invalid UTF-8. -/
theorem Unmarshal_MarshalSearchRequest (r : SearchRequest) :
    UnmarshalSearchRequest (MarshalSearchRequest r)
      = .ok ⟨coerceUTF8 r.Type_, coerceUTF8 r.ProjectRoot⟩ := by
  unfold UnmarshalSearchRequest
  rw [jsonParse_MarshalSearchRequest]
  have m1 : matchField (str "type") (str "type") = true := by decide
  have m2 : matchField (str "type") (str "projectRoot") = false := by decide
  have m3 : matchField (str "projectRoot") (str "projectRoot") = true := by decide
  simp [storeSearchRequest, objectSearchRequest, m1, m2, m3, storeString]

theorem scanRun_marshalArrayTail (ps : List ParseState) (p0 : ParseState) (rest : GoString) :
    ∀ (xs : List GoString) (acc : List JValue) (v : JValue),
      scanRun ⟨.EndValue v, .parseArrayValue acc :: p0 :: ps, []⟩ (marshalArrayTail xs ++ rest)
        = scanRun ⟨.EndValue (.array (acc ++ [v] ++ xs.map fun x => .string (coerceUTF8 x))),
            p0 :: ps, []⟩ rest := by
  intro xs
  induction xs with
  | nil =>
    intro acc v
    simp [marshalArrayTail, scanRun_cons, scanStep, stateEndValue, isSpace, popParseState]
  | cons x xs ih =>
    intro acc v
    have h1 : scanStep ⟨.EndValue v, .parseArrayValue acc :: p0 :: ps, []⟩ 44
        = .ok ⟨.BeginValue, .parseArrayValue (acc ++ [v]) :: p0 :: ps, []⟩ := by
      simp [scanStep, stateEndValue, isSpace]
    simp only [marshalArrayTail, List.cons_append, List.append_assoc]
    rw [scanRun_cons, h1]
    simp only []
    rw [scanRun_appendString _ _ _ _ (scanStep_quote_BeginValue _ _), ih]
    simp

theorem scanRun_marshalStringSlice (ps : List ParseState) (p0 : ParseState) (rest : GoString)
    (paths : Option (List GoString)) (hd : (p0 :: ps).length + 1 ≤ maxNestingDepth) :
    scanRun ⟨.BeginValue, p0 :: ps, []⟩ (marshalStringSlice paths ++ rest)
      = scanRun ⟨.EndValue (sliceValue paths), p0 :: ps, []⟩ rest := by
  have hd2 : ps.length + 1 + 1 ≤ maxNestingDepth := by simpa using hd
  rcases paths with _ | ⟨_ | ⟨x, xs⟩⟩
  · have e : str "null" = [110, 117, 108, 108] := by decide
    simp [marshalStringSlice, sliceValue, e, scanRun_cons, scanStep, stateBeginValue, isSpace]
  · have e : str "[]" = [91, 93] := by decide
    simp [marshalStringSlice, sliceValue, e, scanRun_cons, scanStep, stateBeginValue, isSpace,
      pushParseState, hd2, popParseState]
  · have h1 : scanStep ⟨.BeginValue, p0 :: ps, []⟩ 91
        = .ok ⟨.BeginValueOrEmpty, .parseArrayValue [] :: p0 :: ps, []⟩ := by
      simp [scanStep, stateBeginValue, isSpace, pushParseState, hd2]
    simp only [marshalStringSlice, List.cons_append, List.append_assoc]
    rw [scanRun_cons, h1]
    simp only []
    rw [scanRun_appendString _ _ _ _ (scanStep_quote_BeginValueOrEmpty _ _),
      scanRun_marshalArrayTail]
    simp [sliceValue]

theorem storeStringSlice_sliceValue (paths dst : Option (List GoString)) :
    storeStringSlice (sliceValue paths) dst = (paths.map (List.map coerceUTF8), false) := by
  rcases paths with _ | l
  · rfl
  · have h1 : (l.map fun x => (storeString (JValue.string (coerceUTF8 x)) []).1)
        = l.map coerceUTF8 := by
      induction l with
      | nil => rfl
      | cons a l ih => simp [storeString]
    have h2 : ((l.map fun x => JValue.string (coerceUTF8 x)).any
        fun x => (storeString x []).2) = false := by
      induction l with
      | nil => rfl
      | cons a l ih => simp [storeString]
    simp only [sliceValue, storeStringSlice, Option.map_some', List.map_map, List.any_map,
      Function.comp_def, h1, h2]

theorem scan_response_open :
    scanRun scanReset (str "\x7b\"index\":" ++ str "\x7b\"root\":")
      = .ok ⟨.BeginValue, [.parseObjectValue [] (str "root"),
          .parseObjectValue [] (str "index")], []⟩ := by
  rfl

theorem scan_response_paths (v : JValue) :
    scanRun ⟨.EndValue v, [.parseObjectValue [] (str "root"),
        .parseObjectValue [] (str "index")], []⟩ (str ",\"paths\":")
      = .ok ⟨.BeginValue, [.parseObjectValue [(str "root", v)] (str "paths"),
          .parseObjectValue [] (str "index")], []⟩ := by
  rfl

theorem scan_response_error (v w : JValue) :
    scanRun ⟨.EndValue w, [.parseObjectValue [(str "root", v)] (str "paths"),
        .parseObjectValue [] (str "index")], []⟩ (str "\x7d" ++ str ",\"error\":")
      = .ok ⟨.BeginValue, [.parseObjectValue
          [(str "index", .object [(str "root", v), (str "paths", w)])] (str "error")], []⟩ := by
  rfl

theorem scan_response_close (v w : JValue) :
    scanRun ⟨.EndValue w, [.parseObjectValue [(str "index", v)] (str "error")], []⟩
        (str "\x7d")
      = .ok ⟨.EndTop (.object [(str "index", v), (str "error", w)]), [], []⟩ := by
  rfl

/-- The JSON value read from a marshalled `SearchResponse`. -/
theorem jsonParse_marshalSearchResponse (r : SearchResponse) :
    jsonParse (str "\x7b\"index\":" ++ marshalIndexedProject r.Index ++ str ",\"error\":"
        ++ appendString r.Error ++ str "\x7d")
      = .ok (.object [(str "index", .object [(str "root", .string (coerceUTF8 r.Index.Root)),
            (str "paths", sliceValue r.Index.Paths)]),
          (str "error", .string (coerceUTF8 r.Error))]) := by
  unfold jsonParse marshalIndexedProject
  have e : str "\x7b\"index\":" ++ (str "\x7b\"root\":" ++ appendString r.Index.Root
        ++ str ",\"paths\":" ++ marshalStringSlice r.Index.Paths ++ str "\x7d")
        ++ str ",\"error\":" ++ appendString r.Error ++ str "\x7d"
      = (str "\x7b\"index\":" ++ str "\x7b\"root\":") ++ (appendString r.Index.Root
        ++ (str ",\"paths\":" ++ (marshalStringSlice r.Index.Paths ++ ((str "\x7d" ++
          str ",\"error\":") ++ (appendString r.Error ++ str "\x7d"))))) := by
    simp only [List.append_assoc]
  rw [e, scanRun_append _ _ _ _ scan_response_open,
    scanRun_appendString _ _ _ _ (scanStep_quote_BeginValue _ _),
    scanRun_append _ _ _ _ (scan_response_paths _),
    scanRun_marshalStringSlice _ _ _ _ (by simp [maxNestingDepth]),
    scanRun_append _ _ _ _ (scan_response_error _ _),
    scanRun_appendString _ _ _ _ (scanStep_quote_BeginValue _ _),
    scan_response_close]
  rfl

/-- Unmarshalling a marshalled `SearchResponse` gives the response, up to the
replacement of invalid UTF-8; the document is an object with keys `index`, `error`. -/
theorem Unmarshal_MarshalSearchResponse (r : SearchResponse) (bytes : GoString)
    (h : MarshalSearchResponse r = .ok bytes) :
    UnmarshalSearchResponse bytes = .ok ⟨coerceProject r.Index, coerceUTF8 r.Error⟩
      ∧ objectKeys bytes = some [str "index", str "error"] := by
  simp only [MarshalSearchResponse, Except.ok.injEq] at h
  subst h
  unfold UnmarshalSearchResponse objectKeys
  rw [jsonParse_marshalSearchResponse]
  have m1 : matchField (str "index") (str "index") = true := by decide
  have m2 : matchField (str "index") (str "error") = false := by decide
  have m3 : matchField (str "error") (str "error") = true := by decide
  have m4 : matchField (str "root") (str "root") = true := by decide
  have m5 : matchField (str "root") (str "paths") = false := by decide
  have m6 : matchField (str "paths") (str "paths") = true := by decide
  simp [objectSearchResponse, m1, m2, m3, storeIndexedProject, objectIndexedProject, m4, m5, m6,
    storeString, storeStringSlice_sliceValue, coerceProject]

/-! ### Well-formed strings, and the bytes of marshalled documents -/

theorem validLoop_cons (fuel b : Nat) (rest : GoString) :
    validLoop (fuel + 1) (b :: rest) =
      if (DecodeRune (b :: rest)).2 = 1 ∧ 0x80 ≤ b then false
      else validLoop fuel (rest.drop ((DecodeRune (b :: rest)).2 - 1)) := by
  conv_lhs => unfold validLoop

theorem coerceLoop_of_valid (fuel : Nat) :
    ∀ (s : GoString), validLoop fuel s = true → coerceLoop fuel s = s := by
  induction fuel with
  | zero =>
    intro s h
    cases s with
    | nil => rfl
    | cons a l => simp [validLoop] at h
  | succ fuel ih =>
    intro s h
    rcases s with _ | ⟨b, rest⟩
    · rfl
    · rw [validLoop_cons] at h
      rw [coerceLoop_cons]
      by_cases hb : b < 0x80
      · rw [DecodeRune_ascii b rest hb] at h
        simp only [show ¬ (0x80 ≤ b) by omega, and_false, if_false] at h
        rw [if_pos hb, ih rest (by simpa using h)]
      · rw [if_neg hb]
        rcases DecodeRune_cases b rest (by omega) with hd | ⟨r, n, hd, hn2, hnl, _, _, _, _⟩
        · rw [hd] at h
          simp only [true_and] at h
          rw [if_pos (by omega)] at h
          cases h
        · rw [hd] at h ⊢
          have hn1 : ¬ n = 1 := by omega
          simp only [hn1, false_and, if_false] at h ⊢
          rw [ih _ h]
          obtain ⟨m, rfl⟩ : ∃ m, n = m + 1 := ⟨n - 1, by omega⟩
          simp

/-- A well-formed UTF-8 string is left as it is. -/
theorem coerceUTF8_of_valid (s : GoString) (h : ValidString s = true) : coerceUTF8 s = s :=
  coerceLoop_of_valid s.length s h

theorem coerceLoop_ascii (fuel : Nat) :
    ∀ (s t : GoString), s.length ≤ fuel → (∀ x ∈ t, x < 0x80) → coerceLoop fuel s = t →
      s = t := by
  induction fuel with
  | zero =>
    intro s t hs _ h
    have : s = [] := List.eq_nil_of_length_eq_zero (by omega)
    subst this
    simpa [coerceLoop] using h
  | succ fuel ih =>
    intro s t hs ht h
    rcases s with _ | ⟨b, rest⟩
    · simpa [coerceLoop] using h
    · rw [coerceLoop_cons] at h
      have hrest : rest.length ≤ fuel := by simpa using hs
      by_cases hb : b < 0x80
      · rw [if_pos hb] at h
        rcases t with _ | ⟨c, t⟩
        · cases h
        · simp only [List.cons.injEq] at h
          rw [h.1, ih rest t hrest (fun x hx => ht x (List.mem_cons_of_mem _ hx)) h.2]
      · rw [if_neg hb] at h
        exfalso
        rcases DecodeRune_cases b rest (by omega) with hd | ⟨r, n, hd, hn2, hnl, _, _, _, _⟩
        · rw [hd] at h
          simp only [if_true] at h
          have := ht 0xEF (by rw [← h]; simp)
          omega
        · rw [hd] at h
          have hn1 : ¬ n = 1 := by omega
          simp only [hn1, if_false] at h
          obtain ⟨m, rfl⟩ : ∃ m, n = m + 1 := ⟨n - 1, by omega⟩
          have := ht b (by rw [← h]; simp)
          omega

/-- Replacing invalid bytes gives an ASCII string only for that string itself. -/
theorem coerceUTF8_eq_ascii (s t : GoString) (ht : ∀ x ∈ t, x < 0x80)
    (h : coerceUTF8 s = t) : s = t :=
  coerceLoop_ascii s.length s t (le_refl _) ht h

theorem appendString_bytes (s : GoString) : ∀ x ∈ appendString s, x < 256 := by
  intro x hx
  simp only [appendString, List.mem_cons, List.mem_append, List.mem_singleton,
    List.not_mem_nil, or_false] at hx
  rcases hx with rfl | hx | rfl
  · omega
  · exact appendStringLoop_bytes _ _ x hx
  · omega

theorem marshalArrayTail_bytes (xs : List GoString) : ∀ x ∈ marshalArrayTail xs, x < 256 := by
  induction xs with
  | nil => intro x hx; simp [marshalArrayTail] at hx; omega
  | cons a xs ih =>
    intro x hx
    simp only [marshalArrayTail, List.mem_cons, List.mem_append] at hx
    rcases hx with rfl | hx | hx
    · omega
    · exact appendString_bytes a x hx
    · exact ih x hx

theorem marshalStringSlice_bytes (p : Option (List GoString)) :
    ∀ x ∈ marshalStringSlice p, x < 256 := by
  rcases p with _ | ⟨_ | ⟨a, xs⟩⟩
  · decide
  · decide
  · intro x hx
    simp only [marshalStringSlice, List.mem_cons, List.mem_append] at hx
    rcases hx with rfl | hx | hx
    · omega
    · exact appendString_bytes a x hx
    · exact marshalArrayTail_bytes xs x hx

theorem MarshalSearchRequest_bytes (r : SearchRequest) :
    ∀ x ∈ MarshalSearchRequest r, x < 256 := by
  intro x hx
  simp only [MarshalSearchRequest, List.mem_append] at hx
  rcases hx with (((hx | hx) | hx) | hx) | hx
  · revert x; decide
  · exact appendString_bytes _ x hx
  · revert x; decide
  · exact appendString_bytes _ x hx
  · revert x; decide

theorem MarshalSearchResponse_bytes (r : SearchResponse) (bytes : GoString)
    (h : MarshalSearchResponse r = .ok bytes) : ∀ x ∈ bytes, x < 256 := by
  simp only [MarshalSearchResponse, Except.ok.injEq] at h
  subst h
  intro x hx
  simp only [marshalIndexedProject, List.mem_append] at hx
  rcases hx with (((hx | ((((hx | hx) | hx) | hx) | hx)) | hx) | hx) | hx
  · revert x; decide
  · revert x; decide
  · exact appendString_bytes _ x hx
  · revert x; decide
  · exact marshalStringSlice_bytes _ x hx
  · revert x; decide
  · revert x; decide
  · exact appendString_bytes _ x hx
  · revert x; decide

/-- Decoding an encoded request, the way `Execute` decodes, gives the request up to
the replacement of invalid UTF-8. -/
theorem decode_encodeSearchRequest (r : SearchRequest) :
    QueryUnescape (encodeSearchRequest r) = .ok (MarshalSearchRequest r) ∧
    UnmarshalSearchRequest (MarshalSearchRequest r)
      = .ok ⟨coerceUTF8 r.Type_, coerceUTF8 r.ProjectRoot⟩ :=
  ⟨QueryUnescape_QueryEscape _ (MarshalSearchRequest_bytes r), Unmarshal_MarshalSearchRequest r⟩

/-! ### The decoder does not panic -/

theorem escOK_plain (c : Nat) (s : GoString) (h1 : c ≠ 92) (h2 : c ≠ 34) (h3 : 32 ≤ c) :
    escOK (c :: s) = escOK s := by
  conv_lhs => unfold escOK
  rw [if_neg h1, if_neg (by omega)]

theorem escOK_simple (e : Nat) (s : GoString)
    (h : e = 98 ∨ e = 102 ∨ e = 110 ∨ e = 114 ∨ e = 116 ∨ e = 92 ∨ e = 47 ∨ e = 34) :
    escOK (92 :: e :: s) = escOK s := by
  conv_lhs => unfold escOK
  rw [if_pos rfl]
  simp only [if_pos h]

theorem escOK_u (a b c d : Nat) (s : GoString) (ha : ishex a = true) (hb : ishex b = true)
    (hc : ishex c = true) (hd : ishex d = true) :
    escOK (92 :: 117 :: a :: b :: c :: d :: s) = escOK s := by
  conv_lhs => unfold escOK
  simp [ha, hb, hc, hd]

theorem escOK_inv (c : Nat) (s : GoString) (h : escOK (c :: s) = true) :
    (c ≠ 92 ∧ c ≠ 34 ∧ 32 ≤ c ∧ escOK s = true) ∨
    (c = 92 ∧ ∃ e s1, s = e :: s1 ∧ escOK s1 = true
      ∧ (e = 98 ∨ e = 102 ∨ e = 110 ∨ e = 114 ∨ e = 116 ∨ e = 92 ∨ e = 47 ∨ e = 34)) ∨
    (c = 92 ∧ ∃ a b c1 d s2, s = 117 :: a :: b :: c1 :: d :: s2 ∧ ishex a = true
      ∧ ishex b = true ∧ ishex c1 = true ∧ ishex d = true ∧ escOK s2 = true) := by
  unfold escOK at h
  by_cases h92 : c = 92
  · rw [if_pos h92] at h
    rcases s with _ | ⟨e, s1⟩
    · cases h
    · simp only [] at h
      by_cases hs : e = 98 ∨ e = 102 ∨ e = 110 ∨ e = 114 ∨ e = 116 ∨ e = 92 ∨ e = 47 ∨ e = 34
      · rw [if_pos hs] at h
        exact Or.inr (Or.inl ⟨h92, e, s1, rfl, h, hs⟩)
      · rw [if_neg hs] at h
        by_cases hu : e = 117
        · rw [if_pos hu] at h
          rcases s1 with _ | ⟨a, _ | ⟨b, _ | ⟨c1, _ | ⟨d, s2⟩⟩⟩⟩
          · cases h
          · cases h
          · cases h
          · cases h
          · simp only [Bool.and_eq_true] at h
            exact Or.inr (Or.inr ⟨h92, a, b, c1, d, s2, by rw [hu], h.1.1.1.1, h.1.1.1.2,
              h.1.1.2, h.1.2, h.2⟩)
        · rw [if_neg hu] at h
          cases h
  · rw [if_neg h92] at h
    by_cases h2 : c = 34 ∨ c < 32
    · rw [if_pos h2] at h
      cases h
    · rw [if_neg h2] at h
      exact Or.inl ⟨h92, by omega, by omega, h⟩

theorem escOK_append (n : Nat) :
    ∀ (p q : GoString), p.length ≤ n → escOK p = true → escOK (p ++ q) = escOK q := by
  induction n with
  | zero =>
    intro p q hp _
    have : p = [] := List.eq_nil_of_length_eq_zero (by omega)
    subst this; rfl
  | succ n ih =>
    intro p q hp h
    rcases p with _ | ⟨c, s⟩
    · rfl
    · simp only [List.length_cons] at hp
      rcases escOK_inv c s h with ⟨h1, h2, h3, h4⟩ | ⟨h1, e, s1, rfl, h4, h5⟩
          | ⟨h1, a, b, c1, d, s2, rfl, ha, hb, hc, hd, h4⟩
      · rw [List.cons_append, escOK_plain _ _ h1 h2 h3]
        exact ih s q (by omega) h4
      · subst h1
        rw [List.cons_append, List.cons_append, escOK_simple _ _ h5]
        simp only [List.length_cons] at hp
        exact ih s1 q (by omega) h4
      · subst h1
        simp only [List.cons_append]
        rw [escOK_u _ _ _ _ _ ha hb hc hd]
        simp only [List.length_cons] at hp
        exact ih s2 q (by omega) h4

theorem escOK_snoc_plain (p : GoString) (c : Nat) (h : escOK p = true) (h1 : c ≠ 92)
    (h2 : c ≠ 34) (h3 : 32 ≤ c) : escOK (p ++ [c]) = true := by
  rw [escOK_append p.length p [c] (le_refl _) h, escOK_plain c [] h1 h2 h3]
  rfl

theorem escOK_snoc_simple (p : GoString) (e : Nat) (h : escOK p = true)
    (he : e = 98 ∨ e = 102 ∨ e = 110 ∨ e = 114 ∨ e = 116 ∨ e = 92 ∨ e = 47 ∨ e = 34) :
    escOK (p ++ [92, e]) = true := by
  rw [escOK_append p.length p _ (le_refl _) h, escOK_simple e [] he]
  rfl

theorem escOK_snoc_u (p : GoString) (a b c d : Nat) (h : escOK p = true)
    (ha : ishex a = true) (hb : ishex b = true) (hc : ishex c = true) (hd : ishex d = true) :
    escOK (p ++ [92, 117, a, b, c, d]) = true := by
  rw [escOK_append p.length p _ (le_refl _) h, escOK_u a b c d [] ha hb hc hd]
  rfl

theorem escOK_drop_high (k : Nat) :
    ∀ (s : GoString), (∀ x ∈ s.take k, 0x80 ≤ x) → escOK s = true →
      escOK (s.drop k) = true := by
  induction k with
  | zero => intro s _ h; simpa using h
  | succ k ih =>
    intro s hk h
    rcases s with _ | ⟨c, s⟩
    · simpa using h
    · have hc : 0x80 ≤ c := hk c (by simp)
      rw [escOK_plain c s (by omega) (by omega) (by omega)] at h
      simp only [List.drop_succ_cons]
      exact ih s (fun x hx => hk x (by simp [hx])) h

theorem getu4_inv (s : GoString) (rr : Nat) (h : getu4 s = some rr) :
    ∃ a b c d s2, s = 92 :: 117 :: a :: b :: c :: d :: s2 ∧ ishex a = true ∧ ishex b = true
      ∧ ishex c = true ∧ ishex d = true := by
  rcases s with _ | ⟨c0, _ | ⟨c1, _ | ⟨a, _ | ⟨b, _ | ⟨c, _ | ⟨d, s2⟩⟩⟩⟩⟩⟩ <;>
    simp only [getu4] at h <;> try cases h
  split_ifs at h with hc
  obtain ⟨e0, e1, ha, hb, hc, hd⟩ := hc
  subst e0; subst e1
  exact ⟨a, b, c, d, s2, rfl, ha, hb, hc, hd⟩

/-- Text made of whole tokens is unquoted without failure. -/
theorem unquoteLoop_isSome (f : Nat) :
    ∀ (p : GoString), p.length ≤ f → escOK p = true → (unquoteLoop f p).isSome = true := by
  induction f with
  | zero =>
    intro p hp _
    have : p = [] := List.eq_nil_of_length_eq_zero (by omega)
    subst this; rfl
  | succ f ih =>
    intro p hp h
    rcases p with _ | ⟨c, s⟩
    · rfl
    · simp only [List.length_cons] at hp
      rcases escOK_inv c s h with ⟨h1, h2, h3, h4⟩ | ⟨h1, e, s1, rfl, h4, h5⟩
          | ⟨h1, a, b, c1, d, s2, rfl, ha, hb, hc, hd, h4⟩
      · by_cases hlt : c < 0x80
        · rw [unquoteLoop_plain f c s h1 h2 h3 hlt, Option.isSome_map']
          exact ih s (by omega) h4
        · rw [unquoteLoop_multi f c s (by omega), Option.isSome_map']
          apply ih
          · rw [List.length_drop]; omega
          · rcases DecodeRune_cases c s (by omega) with hd | ⟨r, n, hd, hn2, hnl, _, hb, _, _⟩
            · rw [hd]; simpa using h4
            · rw [hd]
              apply escOK_drop_high _ _ _ h4
              intro x hx
              have : x ∈ List.take n (c :: s) := by
                obtain ⟨m, rfl⟩ : ∃ m, n = m + 1 := ⟨n - 1, by omega⟩
                simp only [List.take_succ_cons, List.mem_cons]
                right; simpa using hx
              exact (hb x this).1
      · subst h1
        simp only [List.length_cons] at hp
        have hs1 := ih s1 (by omega) h4
        rw [unquoteLoop_esc]
        rcases h5 with rfl | rfl | rfl | rfl | rfl | rfl | rfl | rfl <;>
          simp [Option.isSome_map', hs1]
      · subst h1
        simp only [List.length_cons] at hp
        have hs2 := ih s2 (by omega) h4
        rw [unquoteLoop_esc, getu4_hex a b c1 d s2 ha hb hc hd]
        simp only [show ¬ ((117 : Nat) = 34 ∨ (117 : Nat) = 92 ∨ (117 : Nat) = 47
          ∨ (117 : Nat) = 39) by decide, if_false, show ¬ ((117 : Nat) = 98) by decide,
          show ¬ ((117 : Nat) = 102) by decide, show ¬ ((117 : Nat) = 110) by decide,
          show ¬ ((117 : Nat) = 114) by decide, show ¬ ((117 : Nat) = 116) by decide, if_true,
          List.drop_succ_cons, List.drop_zero]
        split_ifs with hsur
        · cases hg : getu4 s2 with
          | none => simp only [Option.isSome_map']; exact hs2
          | some rr1 =>
            simp only []
            split_ifs with hpair
            · rw [Option.isSome_map']
              obtain ⟨a2, b2, c2, d2, s3, rfl, ha2, hb2, hc2, hd2⟩ := getu4_inv s2 rr1 hg
              rw [escOK_u _ _ _ _ _ ha2 hb2 hc2 hd2] at h4
              simp only [List.drop_succ_cons, List.drop_zero]
              simp only [List.length_cons] at hp
              exact ih s3 (by omega) h4
            · rw [Option.isSome_map']; exact hs2
        · rw [Option.isSome_map']; exact hs2

theorem noKey_tail_of_noKey (ps : List ParseState) (h : noKey ps) : noKey ps.tail := by
  intro p hp
  exact h p (List.mem_of_mem_tail hp)

theorem noKey_cons (p : ParseState) (ps : List ParseState) (hp : isKeyState p = false)
    (h : noKey ps) : noKey (p :: ps) := by
  intro q hq
  rcases List.mem_cons.mp hq with rfl | hq
  · exact hp
  · exact h q hq

theorem ScanInv_popParseState (rest : List ParseState) (v : JValue) (h : noKey rest) :
    ScanInv (popParseState rest v) := by
  unfold popParseState ScanInv
  refine ⟨noKey_tail_of_noKey _ h, ?_⟩
  cases hr : rest.isEmpty <;> simp [h]

theorem stateEndValue_inv (s s1 : Scanner) (v : JValue) (c : Nat)
    (h1 : noKey s.parseState.tail) (h2 : noKey s.parseState ∨ isStringValue v = true)
    (h : stateEndValue s v c = .ok s1) : ScanInv s1 := by
  obtain ⟨st, ps, lit⟩ := s
  unfold stateEndValue at h
  rcases ps with _ | ⟨p, rest⟩
  · simp only [] at h
    by_cases hsp : isSpace c = true
    · rw [if_pos hsp] at h
      simp only [Except.ok.injEq] at h
      subst h
      exact ⟨h1, trivial⟩
    · rw [if_neg hsp] at h
      cases h
  · simp only [List.tail_cons] at h1
    simp only [] at h
    by_cases hsp : isSpace c = true
    · rw [if_pos hsp] at h
      simp only [Except.ok.injEq] at h
      subst h
      exact ⟨h1, h2⟩
    · rw [if_neg hsp] at h
      rcases p with ms | ⟨ms, k⟩ | xs
      · simp only [] at h
        by_cases h58 : c = 58
        · rw [if_pos h58] at h
          cases v <;> simp only [Except.ok.injEq, reduceCtorEq] at h
          subst h
          exact ⟨h1, noKey_cons _ _ rfl h1⟩
        · rw [if_neg h58] at h
          cases h
      · simp only [] at h
        by_cases h44 : c = 44
        · rw [if_pos h44] at h
          simp only [Except.ok.injEq] at h
          subst h
          exact ⟨h1, trivial⟩
        · rw [if_neg h44] at h
          by_cases h125 : c = 125
          · rw [if_pos h125] at h
            simp only [Except.ok.injEq] at h
            subst h
            exact ScanInv_popParseState _ _ h1
          · rw [if_neg h125] at h
            cases h
      · simp only [] at h
        by_cases h44 : c = 44
        · rw [if_pos h44] at h
          simp only [Except.ok.injEq] at h
          subst h
          exact ⟨h1, noKey_cons _ _ rfl h1⟩
        · rw [if_neg h44] at h
          by_cases h93 : c = 93
          · rw [if_pos h93] at h
            simp only [Except.ok.injEq] at h
            subst h
            exact ScanInv_popParseState _ _ h1
          · rw [if_neg h93] at h
            cases h

theorem stateEndValue_no_panic (s : Scanner) (v : JValue) (c : Nat)
    (h2 : noKey s.parseState ∨ isStringValue v = true) :
    stateEndValue s v c ≠ .error .phasePanic := by
  obtain ⟨st, ps, lit⟩ := s
  unfold stateEndValue
  rcases ps with _ | ⟨p, rest⟩
  · simp only []
    by_cases hsp : isSpace c = true
    · rw [if_pos hsp]; simp
    · rw [if_neg hsp]; simp
  · simp only []
    by_cases hsp : isSpace c = true
    · rw [if_pos hsp]; simp
    · rw [if_neg hsp]
      rcases p with ms | ⟨ms, k⟩ | xs
      · simp only []
        by_cases h58 : c = 58
        · rw [if_pos h58]
          rcases h2 with h2 | h2
          · have := h2 (.parseObjectKey ms) (List.mem_cons_self _ _)
            simp [isKeyState] at this
          · cases v <;> simp [isStringValue] at h2 ⊢
        · rw [if_neg h58]; simp
      · simp only []
        by_cases h44 : c = 44
        · rw [if_pos h44]; simp
        · rw [if_neg h44]
          by_cases h125 : c = 125
          · rw [if_pos h125]; simp
          · rw [if_neg h125]; simp
      · simp only []
        by_cases h44 : c = 44
        · rw [if_pos h44]; simp
        · rw [if_neg h44]
          by_cases h93 : c = 93
          · rw [if_pos h93]; simp
          · rw [if_neg h93]; simp

theorem pushParseState_cases (s : Scanner) (p : ParseState) (st : Step) :
    pushParseState s p st = .ok ⟨st, p :: s.parseState, []⟩
      ∨ pushParseState s p st = .error .scanError := by
  unfold pushParseState
  split
  · exact Or.inl rfl
  · exact Or.inr rfl

theorem stateBeginValue_inv (s s1 : Scanner) (c : Nat) (hI : ScanInv s)
    (hk : noKey s.parseState) (h : stateBeginValue s c = .ok s1) : ScanInv s1 := by
  obtain ⟨st, ps, lit⟩ := s
  unfold stateBeginValue at h
  have ht : noKey ps.tail := noKey_tail_of_noKey _ hk
  by_cases h1 : isSpace c = true
  · rw [if_pos h1] at h
    simp only [Except.ok.injEq] at h; subst h; exact hI
  rw [if_neg h1] at h
  by_cases h2 : c = 123
  · rw [if_pos h2] at h
    rcases pushParseState_cases ⟨st, ps, lit⟩ (.parseObjectKey []) .BeginStringOrEmpty
      with e | e
    · rw [e] at h
      simp only [Except.ok.injEq] at h; subst h
      exact ⟨hk, trivial⟩
    · rw [e] at h; cases h
  rw [if_neg h2] at h
  by_cases h3 : c = 91
  · rw [if_pos h3] at h
    rcases pushParseState_cases ⟨st, ps, lit⟩ (.parseArrayValue []) .BeginValueOrEmpty
      with e | e
    · rw [e] at h
      simp only [Except.ok.injEq] at h; subst h
      exact ⟨hk, noKey_cons _ _ rfl hk⟩
    · rw [e] at h; cases h
  rw [if_neg h3] at h
  by_cases h4 : c = 34
  · rw [if_pos h4] at h
    simp only [Except.ok.injEq] at h; subst h
    exact ⟨ht, [], rfl, rfl⟩
  rw [if_neg h4] at h
  split_ifs at h
  all_goals
    simp only [Except.ok.injEq] at h
    subst h
    exact ⟨ht, hk⟩

theorem stateBeginValue_no_panic (s : Scanner) (c : Nat) :
    stateBeginValue s c ≠ .error .phasePanic := by
  unfold stateBeginValue
  by_cases h1 : isSpace c = true
  · rw [if_pos h1]; simp
  rw [if_neg h1]
  by_cases h2 : c = 123
  · rw [if_pos h2]
    rcases pushParseState_cases s (.parseObjectKey []) .BeginStringOrEmpty with e | e <;>
      rw [e] <;> simp
  rw [if_neg h2]
  by_cases h3 : c = 91
  · rw [if_pos h3]
    rcases pushParseState_cases s (.parseArrayValue []) .BeginValueOrEmpty with e | e <;>
      rw [e] <;> simp
  rw [if_neg h3]
  split_ifs <;> simp

theorem stateBeginString_inv (s s1 : Scanner) (c : Nat) (hI : ScanInv s)
    (h : stateBeginString s c = .ok s1) : ScanInv s1 := by
  obtain ⟨st, ps, lit⟩ := s
  unfold stateBeginString at h
  split_ifs at h
  · simp only [Except.ok.injEq] at h; subst h; exact hI
  · simp only [Except.ok.injEq] at h; subst h
    exact ⟨hI.1, [], rfl, rfl⟩

theorem stateBeginString_no_panic (s : Scanner) (c : Nat) :
    stateBeginString s c ≠ .error .phasePanic := by
  unfold stateBeginString
  split_ifs <;> simp

theorem unquoteBytes_of_escOK (body : GoString) (h : escOK body = true) :
    ∃ t, unquoteBytes (34 :: body ++ [34]) = some t := by
  rw [List.cons_append, unquoteBytes_quoted]
  exact Option.isSome_iff_exists.mp (unquoteLoop_isSome _ body (le_refl _) h)

/-- A step of the scanner keeps the invariant. -/
theorem scanStep_inv (s s1 : Scanner) (c : Nat) (hI : ScanInv s)
    (h : scanStep s c = .ok s1) : ScanInv s1 := by
  obtain ⟨st, ps, lit⟩ := s
  obtain ⟨ht, hs⟩ := hI
  simp only at ht
  cases st
  case BeginValueOrEmpty =>
    simp only [ScanInv] at hs
    simp only [scanStep] at h
    split_ifs at h
    · simp only [Except.ok.injEq] at h; subst h; exact ⟨ht, hs⟩
    · rcases ps with _ | ⟨p, rest⟩
      · cases h
      · rcases p with ms | ⟨ms, k⟩ | xs <;> simp only [reduceCtorEq] at h
        simp only [Except.ok.injEq] at h; subst h
        exact ScanInv_popParseState _ _ ht
    · exact stateBeginValue_inv _ _ _ ⟨ht, hs⟩ hs h
  case BeginValue =>
    simp only [ScanInv] at hs
    simp only [scanStep] at h
    exact stateBeginValue_inv _ _ _ ⟨ht, hs⟩ hs h
  case BeginStringOrEmpty =>
    simp only [scanStep] at h
    split_ifs at h
    · simp only [Except.ok.injEq] at h; subst h; exact ⟨ht, hs⟩
    · rcases ps with _ | ⟨p, rest⟩
      · cases h
      · rcases p with ms | ⟨ms, k⟩ | xs <;> simp only [reduceCtorEq] at h
        simp only [Except.ok.injEq] at h; subst h
        exact ScanInv_popParseState _ _ ht
    · exact stateBeginString_inv _ _ _ ⟨ht, hs⟩ h
  case BeginString =>
    simp only [scanStep] at h
    exact stateBeginString_inv _ _ _ ⟨ht, hs⟩ h
  case EndValue v =>
    simp only [ScanInv] at hs
    simp only [scanStep] at h
    exact stateEndValue_inv _ _ _ _ ht hs h
  case EndTop v =>
    simp only [scanStep] at h
    split_ifs at h
    simp only [Except.ok.injEq] at h; subst h; exact ⟨ht, trivial⟩
  case InString =>
    simp only [ScanInv] at hs
    obtain ⟨body, hl, hb⟩ := hs
    subst hl
    simp only [scanStep] at h
    split_ifs at h with h34 h92 h32
    · obtain ⟨t, hq⟩ := unquoteBytes_of_escOK body hb
      rw [hq] at h
      simp only [Except.ok.injEq] at h; subst h
      exact ⟨ht, Or.inr rfl⟩
    · simp only [Except.ok.injEq] at h; subst h
      exact ⟨ht, body, by rw [h92]; rfl, hb⟩
    · simp only [Except.ok.injEq] at h; subst h
      exact ⟨ht, body ++ [c], rfl, escOK_snoc_plain body c hb h92 h34 (by omega)⟩
  case InStringEsc =>
    simp only [ScanInv] at hs
    obtain ⟨body, hl, hb⟩ := hs
    subst hl
    simp only [scanStep] at h
    split_ifs at h with he hu
    · simp only [Except.ok.injEq] at h; subst h
      exact ⟨ht, body ++ [92, c], by simp, escOK_snoc_simple body c hb he⟩
    · simp only [Except.ok.injEq] at h; subst h
      exact ⟨ht, body, by rw [hu]; simp, hb⟩
  case InStringEscU =>
    simp only [ScanInv] at hs
    obtain ⟨body, hl, hb⟩ := hs
    subst hl
    simp only [scanStep] at h
    split_ifs at h with hx
    simp only [Except.ok.injEq] at h; subst h
    exact ⟨ht, body, c, by simp, hx, hb⟩
  case InStringEscU1 =>
    simp only [ScanInv] at hs
    obtain ⟨body, a, hl, ha, hb⟩ := hs
    subst hl
    simp only [scanStep] at h
    split_ifs at h with hx
    simp only [Except.ok.injEq] at h; subst h
    exact ⟨ht, body, a, c, by simp, ha, hx, hb⟩
  case InStringEscU12 =>
    simp only [ScanInv] at hs
    obtain ⟨body, a, b, hl, ha, hb2, hb⟩ := hs
    subst hl
    simp only [scanStep] at h
    split_ifs at h with hx
    simp only [Except.ok.injEq] at h; subst h
    exact ⟨ht, body, a, b, c, by simp, ha, hb2, hx, hb⟩
  case InStringEscU123 =>
    simp only [ScanInv] at hs
    obtain ⟨body, a, b, c3, hl, ha, hb2, hc3, hb⟩ := hs
    subst hl
    simp only [scanStep] at h
    split_ifs at h with hx
    simp only [Except.ok.injEq] at h; subst h
    exact ⟨ht, body ++ [92, 117, a, b, c3, c], by simp,
      escOK_snoc_u body a b c3 c hb ha hb2 hc3 hx⟩
  all_goals
    simp only [ScanInv] at hs
    simp only [scanStep] at h
    split_ifs at h <;>
      first
      | exact stateEndValue_inv _ _ _ _ ht (Or.inl hs) h
      | (simp only [Except.ok.injEq] at h; subst h; exact ⟨ht, hs⟩)
      | (simp only [Except.ok.injEq] at h; subst h; exact ⟨ht, Or.inl hs⟩)

/-- No step of the scanner, taken from a state it can reach, is the decoder's panic. -/
theorem scanStep_no_panic (s : Scanner) (c : Nat) (hI : ScanInv s) :
    scanStep s c ≠ .error .phasePanic := by
  obtain ⟨st, ps, lit⟩ := s
  obtain ⟨ht, hs⟩ := hI
  simp only at ht
  cases st
  case BeginValueOrEmpty =>
    simp only [scanStep]
    split_ifs
    · simp
    · rcases ps with _ | ⟨p, rest⟩
      · simp
      · rcases p with ms | ⟨ms, k⟩ | xs <;> simp
    · exact stateBeginValue_no_panic _ _
  case BeginValue => exact stateBeginValue_no_panic _ _
  case BeginStringOrEmpty =>
    simp only [scanStep]
    split_ifs
    · simp
    · rcases ps with _ | ⟨p, rest⟩
      · simp
      · rcases p with ms | ⟨ms, k⟩ | xs <;> simp
    · exact stateBeginString_no_panic _ _
  case BeginString => exact stateBeginString_no_panic _ _
  case EndValue v =>
    simp only [ScanInv] at hs
    exact stateEndValue_no_panic _ _ _ hs
  case InString =>
    simp only [ScanInv] at hs
    obtain ⟨body, hl, hb⟩ := hs
    subst hl
    simp only [scanStep]
    split_ifs
    · obtain ⟨t, hq⟩ := unquoteBytes_of_escOK body hb
      rw [hq]
      simp
    · simp
    · simp
    · simp
  all_goals
    simp only [ScanInv] at hs
    simp only [scanStep]
    split_ifs <;>
      first
      | exact stateEndValue_no_panic _ _ _ (Or.inl hs)
      | simp

theorem scanRun_no_panic (data : GoString) :
    ∀ (s : Scanner), ScanInv s →
      scanRun s data ≠ .error .phasePanic ∧ ∀ s1, scanRun s data = .ok s1 → ScanInv s1 := by
  induction data with
  | nil =>
    intro s hI
    refine ⟨by simp [scanRun], ?_⟩
    intro s1 h
    simp only [scanRun, Except.ok.injEq] at h
    subst h; exact hI
  | cons c cs ih =>
    intro s hI
    rw [scanRun_cons]
    cases hc : scanStep s c with
    | error e =>
      refine ⟨?_, by intro s1 h; cases h⟩
      intro h
      simp only [Except.error.injEq] at h
      subst h
      exact scanStep_no_panic s c hI hc
    | ok s2 => exact ih s2 (scanStep_inv s s2 c hI hc)

theorem ScanInv_scanReset : ScanInv scanReset := by
  refine ⟨?_, ?_⟩
  · intro p hp; simp [scanReset] at hp
  · intro p hp; simp [scanReset] at hp

/-- Reading a JSON document never ends in the decoder's panic. -/
theorem jsonParse_no_panic (data : GoString) : jsonParse data ≠ .error .phasePanic := by
  unfold jsonParse
  obtain ⟨h1, h2⟩ := scanRun_no_panic data scanReset ScanInv_scanReset
  cases hr : scanRun scanReset data with
  | error e =>
    intro h
    simp only [Except.error.injEq] at h
    subst h
    exact h1 hr
  | ok s =>
    have hI := h2 s hr
    simp only []
    unfold scanEof
    have hp := scanStep_no_panic s 32 hI
    cases hs : scanStep s 32 with
    | error e =>
      have : e ≠ .phasePanic := by
        intro he; subst he; exact hp hs
      split <;> simp [this]
    | ok s2 =>
      split
      · simp
      · simp only []
        split <;> simp

/-- `json.Unmarshal` into a `SearchRequest` returns; it never panics. -/
theorem UnmarshalSearchRequest_no_panic (data : GoString) :
    UnmarshalSearchRequest data ≠ .error .phasePanic := by
  unfold UnmarshalSearchRequest
  have := jsonParse_no_panic data
  cases hj : jsonParse data with
  | error e =>
    cases e
    · simp
    · exact absurd hj this
  | ok v =>
    simp only []
    split_ifs <;> simp

/-! ### The responses of the plugin -/

theorem errorResponse_decodes_500a :
    ∃ out, errorResponse 500 (str "Could not query decode request.") = .ok out
      ∧ responseKeys out = some [str "errorCode", str "error"]
      ∧ decodeErrorResponse out = some ⟨500, str "Could not query decode request."⟩
      ∧ decodeSearchResponse out
          = some ⟨⟨[], none⟩, str "Could not query decode request."⟩ := by
  refine ⟨_, rfl, ?_, ?_, ?_⟩ <;> decide

theorem errorResponse_decodes_400 :
    ∃ out, errorResponse 400 (str "Invalid request.") = .ok out
      ∧ responseKeys out = some [str "errorCode", str "error"]
      ∧ decodeErrorResponse out = some ⟨400, str "Invalid request."⟩
      ∧ decodeSearchResponse out = some ⟨⟨[], none⟩, str "Invalid request."⟩ := by
  refine ⟨_, rfl, ?_, ?_, ?_⟩ <;> decide

theorem errorResponse_decodes_404 :
    ∃ out, errorResponse 404 (str "Unknown request type.") = .ok out
      ∧ responseKeys out = some [str "errorCode", str "error"]
      ∧ decodeErrorResponse out = some ⟨404, str "Unknown request type."⟩
      ∧ decodeSearchResponse out = some ⟨⟨[], none⟩, str "Unknown request type."⟩ := by
  refine ⟨_, rfl, ?_, ?_, ?_⟩ <;> decide

theorem errorResponse_decodes_500b :
    ∃ out, errorResponse 500 (str "Error retrieving files.") = .ok out
      ∧ responseKeys out = some [str "errorCode", str "error"]
      ∧ decodeErrorResponse out = some ⟨500, str "Error retrieving files."⟩
      ∧ decodeSearchResponse out = some ⟨⟨[], none⟩, str "Error retrieving files."⟩ := by
  refine ⟨_, rfl, ?_, ?_, ?_⟩ <;> decide

/-- What `searchResponse` returns for any index, and how it reads back. -/
theorem searchResponse_decodes (index : Option IndexedProject) :
    ∃ out, searchResponse index = .ok out
      ∧ responseKeys out = some [str "index", str "error"]
      ∧ decodeSearchResponse out = some (match index with
          | none => ⟨⟨[], some []⟩, str "No results. See logs for further details."⟩
          | some p => ⟨coerceProject p, []⟩) := by
  unfold searchResponse
  simp only []
  cases hm : MarshalSearchResponse (match index with
      | none => { Index := { Root := [], Paths := some [] },
                  Error := str "No results. See logs for further details." }
      | some p => { Index := p, Error := [] }) with
  | error e => simp [MarshalSearchResponse] at hm
  | ok bytes =>
    have h1 := Unmarshal_MarshalSearchResponse _ bytes hm
    have h2 := QueryUnescape_QueryEscape bytes (MarshalSearchResponse_bytes _ bytes hm)
    refine ⟨QueryEscape bytes, rfl, ?_, ?_⟩
    · simp only [responseKeys, h2, h1.2]
    · simp only [decodeSearchResponse, h2, h1.1]
      cases index with
      | none => rfl
      | some p => rfl

/-- The four ways `Execute` can end, none of them a panic. -/
theorem Execute_cases (GetFiles : BasicSearch → GoString → GetFilesResult) (g : BasicSearch)
    (s : GoString) :
    ((∃ e, QueryUnescape s = .error e)
        ∧ Execute GetFiles g s = errorResponse 500 (str "Could not query decode request."))
    ∨ (∃ txt, QueryUnescape s = .ok txt ∧ (∀ r, UnmarshalSearchRequest txt ≠ .ok r)
        ∧ Execute GetFiles g s = errorResponse 400 (str "Invalid request."))
    ∨ (∃ txt r, QueryUnescape s = .ok txt ∧ UnmarshalSearchRequest txt = .ok r
        ∧ r.Type_ ≠ str "files"
        ∧ Execute GetFiles g s = errorResponse 404 (str "Unknown request type."))
    ∨ (∃ txt r, QueryUnescape s = .ok txt ∧ UnmarshalSearchRequest txt = .ok r
        ∧ r.Type_ = str "files" ∧ (∃ e, (GetFiles g r.ProjectRoot).2 = some e)
        ∧ Execute GetFiles g s = errorResponse 500 (str "Error retrieving files."))
    ∨ (∃ txt r, QueryUnescape s = .ok txt ∧ UnmarshalSearchRequest txt = .ok r
        ∧ r.Type_ = str "files" ∧ (GetFiles g r.ProjectRoot).2 = none
        ∧ Execute GetFiles g s = searchResponse (GetFiles g r.ProjectRoot).1) := by
  cases hq : QueryUnescape s with
  | error e => exact Or.inl ⟨⟨e, rfl⟩, by simp only [Execute, hq]⟩
  | ok txt =>
    right
    cases hu : UnmarshalSearchRequest txt with
    | error e =>
      left
      refine ⟨txt, rfl, ?_, ?_⟩
      · intro r h
        rw [hu] at h
        cases h
      · cases e
        · simp only [Execute, hq, hu]
        · simp only [Execute, hq, hu]
        · exact absurd hu (UnmarshalSearchRequest_no_panic txt)
    | ok r =>
      right
      by_cases ht : r.Type_ = str "files"
      · right
        rcases hg : GetFiles g r.ProjectRoot with ⟨proj, _ | e⟩
        · right
          refine ⟨txt, r, rfl, hu, ht, by rw [hg], ?_⟩
          simp only [Execute, hq, hu, ht, ne_eq, not_true_eq_false, if_false, hg]
        · left
          refine ⟨txt, r, rfl, hu, ht, ⟨e, by rw [hg]⟩, ?_⟩
          simp only [Execute, hq, hu, ht, ne_eq, not_true_eq_false, if_false, hg]
      · left
        refine ⟨txt, r, rfl, hu, ht, ?_⟩
        simp only [Execute, hq, hu, ne_eq, ht, not_false_eq_true, if_true]

theorem coerceProject_of_valid (p : IndexedProject) (h : validProject p = true) :
    coerceProject p = p := by
  obtain ⟨root, paths⟩ := p
  simp only [validProject, Bool.and_eq_true] at h
  unfold coerceProject
  simp only [coerceUTF8_of_valid root h.1]
  congr 1
  rcases paths with _ | l
  · rfl
  · simp only [Option.map_some', Option.some.injEq]
    have h2 : ∀ x ∈ l, ValidString x = true := by
      have := h.2
      simpa [List.all_eq_true] using this
    calc List.map coerceUTF8 l = List.map id l :=
          List.map_congr_left (fun x hx => coerceUTF8_of_valid x (h2 x hx))
      _ = l := List.map_id l

theorem objectSearchRequest_no_type (ms : List (GoString × JValue)) :
    ∀ (r : SearchRequest) (e : Bool),
      (∀ kv ∈ ms, matchField (str "type") kv.1 = false) →
      (∀ kv ∈ ms, matchField (str "projectRoot") kv.1 = true → fitsString kv.2 = true) →
      (objectSearchRequest ms r e).1.Type_ = r.Type_ ∧ (objectSearchRequest ms r e).2 = e := by
  induction ms with
  | nil => intro r e _ _; exact ⟨rfl, rfl⟩
  | cons kv ms ih =>
    intro r e h1 h2
    obtain ⟨k, v⟩ := kv
    have hk : matchField (str "type") k = false := h1 (k, v) (List.mem_cons_self _ _)
    have ih1 := fun r e => ih r e (fun kv hkv => h1 kv (List.mem_cons_of_mem _ hkv))
      (fun kv hkv => h2 kv (List.mem_cons_of_mem _ hkv))
    unfold objectSearchRequest
    simp only [hk, Bool.false_eq_true, if_false]
    by_cases hp : matchField (str "projectRoot") k = true
    · have hv : fitsString v = true := h2 (k, v) (List.mem_cons_self _ _) hp
      have hs : (storeString v r.ProjectRoot).2 = false := by
        cases v <;> simp [fitsString] at hv <;> rfl
      simp only [hp, if_true, hs, Bool.or_false]
      exact ih1 _ _
    · simp only [hp, if_false]
      exact ih1 _ _

/-- A document that is `null`, or an object with no key selecting `type` and only
strings or `null` under keys selecting `projectRoot`, unmarshals to a request with the
empty type. -/
theorem Unmarshal_no_type (txt : GoString)
    (h : jsonParse txt = .ok .null ∨ ∃ ms, jsonParse txt = .ok (.object ms)
      ∧ (∀ kv ∈ ms, matchField (str "type") kv.1 = false)
      ∧ (∀ kv ∈ ms, matchField (str "projectRoot") kv.1 = true → fitsString kv.2 = true)) :
    ∃ r, UnmarshalSearchRequest txt = .ok r ∧ r.Type_ = [] := by
  rcases h with h | ⟨ms, h, h1, h2⟩
  · refine ⟨⟨[], []⟩, ?_, rfl⟩
    simp [UnmarshalSearchRequest, h, storeSearchRequest]
  · obtain ⟨e1, e2⟩ := objectSearchRequest_no_type ms ⟨[], []⟩ false h1 h2
    refine ⟨(objectSearchRequest ms ⟨[], []⟩ false).1, ?_, e1⟩
    simp [UnmarshalSearchRequest, h, storeSearchRequest, e2]

theorem Execute_not_files (GetFiles : BasicSearch → GoString → GetFilesResult)
    (g : BasicSearch) (s txt : GoString) (r : SearchRequest) (h1 : QueryUnescape s = .ok txt)
    (h2 : UnmarshalSearchRequest txt = .ok r) (h3 : r.Type_ ≠ str "files") :
    Execute GetFiles g s = errorResponse 404 (str "Unknown request type.") := by
  simp only [Execute, h1, h2, ne_eq, h3, not_false_eq_true, if_true]

theorem Execute_files (GetFiles : BasicSearch → GoString → GetFilesResult)
    (g : BasicSearch) (s txt : GoString) (r : SearchRequest) (h1 : QueryUnescape s = .ok txt)
    (h2 : UnmarshalSearchRequest txt = .ok r) (h3 : r.Type_ = str "files") :
    Execute GetFiles g s =
      match GetFiles g r.ProjectRoot with
      | (_, some _) => errorResponse 500 (str "Error retrieving files.")
      | (proj, none) => searchResponse proj := by
  simp only [Execute, h1, h2, h3, ne_eq, not_true_eq_false, if_false]

theorem decodedError_400 :
    decodedError (errorResponse 400 (str "Invalid request."))
      = some ⟨400, str "Invalid request."⟩ := by decide

theorem decodedError_404 :
    decodedError (errorResponse 404 (str "Unknown request type."))
      = some ⟨404, str "Unknown request type."⟩ := by decide

theorem decodedError_500_decode :
    decodedError (errorResponse 500 (str "Could not query decode request."))
      = some ⟨500, str "Could not query decode request."⟩ := by decide

theorem decodedError_500_files :
    decodedError (errorResponse 500 (str "Error retrieving files."))
      = some ⟨500, str "Error retrieving files."⟩ := by decide

theorem decodedSearch_404 :
    decodedSearch (errorResponse 404 (str "Unknown request type."))
      = some ⟨⟨[], none⟩, str "Unknown request type."⟩ := by decide

theorem decodedSearch_searchResponse (index : Option IndexedProject) :
    decodedSearch (searchResponse index) = some (match index with
      | none => ⟨⟨[], some []⟩, str "No results. See logs for further details."⟩
      | some p => ⟨coerceProject p, []⟩) := by
  obtain ⟨out, h1, _, h3⟩ := searchResponse_decodes index
  rw [h1]
  exact h3

theorem ascii_files : ∀ x ∈ str "files", x < 0x80 := by decide

theorem ValidString_files : ValidString (str "files") = true := by decide

/-! ## The claims -/

/-- C1: for every input string and every behaviour of `GetFiles`, `Execute` returns a
string (no panic branch is reached), and that string URL-unescapes to a JSON object
with the keys of an `ErrorResponse` (`errorCode`, `error`) that reads as one, or with
the keys of a `SearchResponse` (`index`, `error`) that reads as one. -/
theorem C1_Execute_returns_encoded_response
    (GetFiles : BasicSearch → GoString → GetFilesResult) (g : BasicSearch)
    (encodedReq : GoString) :
    ∃ out, Execute GetFiles g encodedReq = .ok out ∧
      ((responseKeys out = some [str "errorCode", str "error"]
          ∧ ∃ e, decodeErrorResponse out = some e)
        ∨ (responseKeys out = some [str "index", str "error"]
          ∧ ∃ r, decodeSearchResponse out = some r)) := by
  rcases Execute_cases GetFiles g encodedReq with ⟨_, h⟩ | ⟨_, _, _, h⟩ | ⟨_, _, _, _, _, h⟩
      | ⟨_, _, _, _, _, _, h⟩ | ⟨_, _, _, _, _, _, h⟩
  · obtain ⟨out, h1, h2, h3, _⟩ := errorResponse_decodes_500a
    exact ⟨out, h.trans h1, Or.inl ⟨h2, _, h3⟩⟩
  · obtain ⟨out, h1, h2, h3, _⟩ := errorResponse_decodes_400
    exact ⟨out, h.trans h1, Or.inl ⟨h2, _, h3⟩⟩
  · obtain ⟨out, h1, h2, h3, _⟩ := errorResponse_decodes_404
    exact ⟨out, h.trans h1, Or.inl ⟨h2, _, h3⟩⟩
  · obtain ⟨out, h1, h2, h3, _⟩ := errorResponse_decodes_500b
    exact ⟨out, h.trans h1, Or.inl ⟨h2, _, h3⟩⟩
  · obtain ⟨out, h1, h2, h3⟩ := searchResponse_decodes (GetFiles g _).1
    exact ⟨out, h.trans h1, Or.inr ⟨h2, _, h3⟩⟩

/-- C2: for every `SearchRequest` whose type is not "files", whatever its project
root, the lookup and the registry, `Execute` applied to the URL-escaped JSON encoding
of the request returns a response that reads as the error with code 404, and as a
`SearchResponse` with the empty index (root "", no paths). -/
theorem C2_unknown_type_yields_404 (GetFiles : BasicSearch → GoString → GetFilesResult)
    (g : BasicSearch) (req : SearchRequest) (h : req.Type_ ≠ str "files") :
    decodedError (Execute GetFiles g (encodeSearchRequest req))
        = some ⟨404, str "Unknown request type."⟩
      ∧ decodedSearch (Execute GetFiles g (encodeSearchRequest req))
        = some ⟨⟨[], none⟩, str "Unknown request type."⟩ := by
  obtain ⟨h1, h2⟩ := decode_encodeSearchRequest req
  have h3 : (⟨coerceUTF8 req.Type_, coerceUTF8 req.ProjectRoot⟩ : SearchRequest).Type_
      ≠ str "files" := fun hc => h (coerceUTF8_eq_ascii _ _ ascii_files hc)
  rw [Execute_not_files GetFiles g _ _ _ h1 h2 h3]
  exact ⟨decodedError_404, decodedSearch_404⟩

/-- C2 at the request with type "bogus" and project root "/tmp/proj". -/
theorem C2_unknown_type_yields_404_witness :
    (⟨str "bogus", str "/tmp/proj"⟩ : SearchRequest).Type_ ≠ str "files"
      ∧ decodedError (Execute sampleGetFiles ⟨[]⟩
          (encodeSearchRequest ⟨str "bogus", str "/tmp/proj"⟩))
        = some ⟨404, str "Unknown request type."⟩
      ∧ decodedSearch (Execute sampleGetFiles ⟨[]⟩
          (encodeSearchRequest ⟨str "bogus", str "/tmp/proj"⟩))
        = some ⟨⟨[], none⟩, str "Unknown request type."⟩ :=
  ⟨by decide, C2_unknown_type_yields_404 sampleGetFiles ⟨[]⟩ ⟨str "bogus", str "/tmp/proj"⟩
    (by decide)⟩

/-- C3, as stated, fails: the request whose type is the single byte 0xFF (not
well-formed UTF-8) is encoded and decoded to a request whose type is U+FFFD (bytes EF
BF BD), not to itself. -/
theorem C3_roundtrip_counterexample :
    decodeSearchRequest (encodeSearchRequest ⟨[0xFF], []⟩) = some ⟨[0xEF, 0xBF, 0xBD], []⟩
      ∧ decodeSearchRequest (encodeSearchRequest ⟨[0xFF], []⟩) ≠ some ⟨[0xFF], []⟩ := by
  decide

/-- C3, amended: for every `SearchRequest` whose type and project root are
well-formed UTF-8, decoding the way `Execute` does (`url.QueryUnescape`, then
`json.Unmarshal`) the encoding of the request (`json.Marshal`, then
`url.QueryEscape`) succeeds and yields the request. -/
theorem C3_roundtrip_valid_utf8 (req : SearchRequest) (hT : ValidString req.Type_ = true)
    (hR : ValidString req.ProjectRoot = true) :
    decodeSearchRequest (encodeSearchRequest req) = some req := by
  obtain ⟨h1, h2⟩ := decode_encodeSearchRequest req
  simp only [decodeSearchRequest, h1, h2, coerceUTF8_of_valid _ hT, coerceUTF8_of_valid _ hR]

/-- C3, amended, at the request with type "files" and project root "/tmp/proj". -/
theorem C3_roundtrip_valid_utf8_witness :
    ValidString (str "files") = true ∧ ValidString (str "/tmp/proj") = true
      ∧ decodeSearchRequest (encodeSearchRequest ⟨str "files", str "/tmp/proj"⟩)
        = some ⟨str "files", str "/tmp/proj"⟩ :=
  ⟨by decide, by decide,
    C3_roundtrip_valid_utf8 ⟨str "files", str "/tmp/proj"⟩ (by decide) (by decide)⟩

/-- C4, as stated, fails: when the lookup of "/tmp/proj" returns without error a
snapshot one of whose paths is the byte 0xFF, the response to the "files" request
reads as a `SearchResponse` whose path is U+FFFD, not as the snapshot. -/
theorem C4_end_to_end_counterexample :
    latin1GetFiles ⟨[]⟩ (str "/tmp/proj")
        = (some ⟨str "/tmp/proj", some [[0xFF]]⟩, none)
      ∧ decodedSearch (Execute latin1GetFiles ⟨[]⟩
          (encodeSearchRequest ⟨str "files", str "/tmp/proj"⟩))
        = some ⟨⟨str "/tmp/proj", some [[0xEF, 0xBF, 0xBD]]⟩, []⟩
      ∧ decodedSearch (Execute latin1GetFiles ⟨[]⟩
          (encodeSearchRequest ⟨str "files", str "/tmp/proj"⟩))
        ≠ some ⟨⟨str "/tmp/proj", some [[0xFF]]⟩, []⟩ := by
  decide

/-- C4, amended: for every project root `r` that is well-formed UTF-8 and for which
`GetFiles` returns, without error, a snapshot `p` whose root and paths are well-formed
UTF-8, `Execute` applied to the encoding of the request with type "files" and project
root `r` returns a string that unescapes and decodes to the `SearchResponse` with
index `p` (same root, same paths in the same order) and error "". -/
theorem C4_end_to_end_valid_utf8 (GetFiles : BasicSearch → GoString → GetFilesResult)
    (g : BasicSearch) (r : GoString) (p : IndexedProject) (hr : ValidString r = true)
    (hp : validProject p = true) (hg : GetFiles g r = (some p, none)) :
    decodedSearch (Execute GetFiles g (encodeSearchRequest ⟨str "files", r⟩))
      = some ⟨p, []⟩ := by
  obtain ⟨h1, h2⟩ := decode_encodeSearchRequest ⟨str "files", r⟩
  simp only [coerceUTF8_of_valid _ hr, coerceUTF8_of_valid _ ValidString_files] at h2
  rw [Execute_files GetFiles g _ _ _ h1 h2 rfl]
  simp only [hg]
  rw [decodedSearch_searchResponse]
  simp only [coerceProject_of_valid p hp]

/-- C4, amended, at the example of the spec: root "/tmp/proj" with the two files
"/tmp/proj/a.txt" and "/tmp/proj/b/c.txt". -/
theorem C4_end_to_end_valid_utf8_witness :
    ValidString (str "/tmp/proj") = true
      ∧ validProject ⟨str "/tmp/proj", some [str "/tmp/proj/a.txt", str "/tmp/proj/b/c.txt"]⟩
        = true
      ∧ sampleGetFiles ⟨[]⟩ (str "/tmp/proj")
        = (some ⟨str "/tmp/proj", some [str "/tmp/proj/a.txt", str "/tmp/proj/b/c.txt"]⟩,
            none)
      ∧ decodedSearch (Execute sampleGetFiles ⟨[]⟩
          (encodeSearchRequest ⟨str "files", str "/tmp/proj"⟩))
        = some ⟨⟨str "/tmp/proj", some [str "/tmp/proj/a.txt", str "/tmp/proj/b/c.txt"]⟩,
            []⟩ :=
  ⟨by decide, by decide, by decide,
    C4_end_to_end_valid_utf8 sampleGetFiles ⟨[]⟩ (str "/tmp/proj")
      ⟨str "/tmp/proj", some [str "/tmp/proj/a.txt", str "/tmp/proj/b/c.txt"]⟩
      (by decide) (by decide) (by decide)⟩

/-- C5: for every request string that URL-unescapes successfully to a text that
`json.Unmarshal` does not decode into a `SearchRequest`, `Execute` returns the encoded
`ErrorResponse` with code 400 and message "Invalid request.", the same whatever the
lookup and the registry are. -/
theorem C5_bad_request_yields_400 (GetFiles : BasicSearch → GoString → GetFilesResult)
    (g : BasicSearch) (s txt : GoString) (h1 : QueryUnescape s = .ok txt)
    (h2 : ∀ r, UnmarshalSearchRequest txt ≠ .ok r) :
    Execute GetFiles g s = errorResponse 400 (str "Invalid request.")
      ∧ decodedError (Execute GetFiles g s) = some ⟨400, str "Invalid request."⟩
      ∧ ∀ (GetFiles2 : BasicSearch → GoString → GetFilesResult) (g2 : BasicSearch),
          Execute GetFiles2 g2 s = Execute GetFiles g s := by
  have key : ∀ (G : BasicSearch → GoString → GetFilesResult) (b : BasicSearch),
      Execute G b s = errorResponse 400 (str "Invalid request.") := by
    intro G b
    rcases Execute_cases G b s with ⟨⟨e, he⟩, _⟩ | ⟨_, _, _, h⟩ | ⟨t, r, ht, hu, _⟩
        | ⟨t, r, ht, hu, _⟩ | ⟨t, r, ht, hu, _⟩
    · rw [h1] at he; cases he
    · exact h
    all_goals
      rw [h1] at ht
      simp only [Except.ok.injEq] at ht
      subst ht
      exact absurd hu (h2 r)
  refine ⟨key GetFiles g, ?_, fun G b => (key G b).trans (key GetFiles g).symm⟩
  rw [key GetFiles g]
  exact decodedError_400

/-- C5 at the request `%7B%22type%22%3A5%7D`, which unescapes to the JSON object
whose `type` is the number 5. -/
theorem C5_bad_request_yields_400_witness :
    QueryUnescape (str "%7B%22type%22%3A5%7D") = .ok (str "\x7b\"type\":5\x7d")
      ∧ (∀ r, UnmarshalSearchRequest (str "\x7b\"type\":5\x7d") ≠ .ok r)
      ∧ Execute sampleGetFiles ⟨[]⟩ (str "%7B%22type%22%3A5%7D")
        = errorResponse 400 (str "Invalid request.")
      ∧ decodedError (Execute sampleGetFiles ⟨[]⟩ (str "%7B%22type%22%3A5%7D"))
        = some ⟨400, str "Invalid request."⟩
      ∧ ∀ (GetFiles2 : BasicSearch → GoString → GetFilesResult) (g2 : BasicSearch),
          Execute GetFiles2 g2 (str "%7B%22type%22%3A5%7D")
            = Execute sampleGetFiles ⟨[]⟩ (str "%7B%22type%22%3A5%7D") :=
  have hu : ∀ r, UnmarshalSearchRequest (str "\x7b\"type\":5\x7d") ≠ .ok r := by
    intro r h
    have e : UnmarshalSearchRequest (str "\x7b\"type\":5\x7d") = .error .UnmarshalTypeError := by
      decide
    rw [e] at h
    cases h
  ⟨by decide, hu, C5_bad_request_yields_400 sampleGetFiles ⟨[]⟩ _ _ (by decide) hu⟩

/-- C6: for every request string whose percent-escaping is malformed
(`url.QueryUnescape` fails), `Execute` returns the encoded `ErrorResponse` with code
500 and message "Could not query decode request."; the response to any well-escaped
request whose JSON does not decode reads as an `ErrorResponse` with another code and
another message. -/
theorem C6_transport_error_yields_500 (GetFiles : BasicSearch → GoString → GetFilesResult)
    (g : BasicSearch) (s : GoString) (h : ∀ txt, QueryUnescape s ≠ .ok txt) :
    Execute GetFiles g s = errorResponse 500 (str "Could not query decode request.")
      ∧ decodedError (Execute GetFiles g s)
        = some ⟨500, str "Could not query decode request."⟩
      ∧ ∀ (GetFiles2 : BasicSearch → GoString → GetFilesResult) (g2 : BasicSearch)
          (s2 txt2 : GoString), QueryUnescape s2 = .ok txt2 →
          (∀ r, UnmarshalSearchRequest txt2 ≠ .ok r) →
          ∃ e2, decodedError (Execute GetFiles2 g2 s2) = some e2 ∧ e2.ErrorCode ≠ 500
            ∧ e2.Error ≠ str "Could not query decode request." := by
  have key : Execute GetFiles g s = errorResponse 500 (str "Could not query decode request.") := by
    cases hq : QueryUnescape s with
    | error e => simp only [Execute, hq]
    | ok txt => exact absurd hq (h txt)
  refine ⟨key, ?_, ?_⟩
  · rw [key]
    exact decodedError_500_decode
  · intro G b s2 txt2 h1 h2
    refine ⟨⟨400, str "Invalid request."⟩, ?_, by decide, by decide⟩
    have h3 : Execute G b s2 = errorResponse 400 (str "Invalid request.") := by
      cases hu : UnmarshalSearchRequest txt2 with
      | ok r => exact absurd hu (h2 r)
      | error e =>
        cases e
        · simp only [Execute, h1, hu]
        · simp only [Execute, h1, hu]
        · exact absurd hu (UnmarshalSearchRequest_no_panic txt2)
    rw [h3]
    exact decodedError_400

/-- C6 at the request `%zz`, a percent sign not followed by two hexadecimal digits. -/
theorem C6_transport_error_yields_500_witness :
    (∀ txt, QueryUnescape (str "%zz") ≠ .ok txt)
      ∧ Execute sampleGetFiles ⟨[]⟩ (str "%zz")
        = errorResponse 500 (str "Could not query decode request.")
      ∧ decodedError (Execute sampleGetFiles ⟨[]⟩ (str "%zz"))
        = some ⟨500, str "Could not query decode request."⟩
      ∧ ∀ (GetFiles2 : BasicSearch → GoString → GetFilesResult) (g2 : BasicSearch)
          (s2 txt2 : GoString), QueryUnescape s2 = .ok txt2 →
          (∀ r, UnmarshalSearchRequest txt2 ≠ .ok r) →
          ∃ e2, decodedError (Execute GetFiles2 g2 s2) = some e2 ∧ e2.ErrorCode ≠ 500
            ∧ e2.Error ≠ str "Could not query decode request." :=
  have hq : ∀ txt, QueryUnescape (str "%zz") ≠ .ok txt := by
    intro txt h
    have e : QueryUnescape (str "%zz") = .error (.mk (str "%zz")) := by decide
    rw [e] at h
    cases h
  ⟨hq, C6_transport_error_yields_500 sampleGetFiles ⟨[]⟩ (str "%zz") hq⟩

/-- C7, as stated, fails: for the non-nil index whose only path is the byte 0xFF, the
string produced by `searchResponse` decodes to a response whose index has the path
U+FFFD, not to a response with index equal to the one given. -/
theorem C7_searchResponse_counterexample :
    decodedSearch (searchResponse (some ⟨[], some [[0xFF]]⟩))
        = some ⟨⟨[], some [[0xEF, 0xBF, 0xBD]]⟩, []⟩
      ∧ decodedSearch (searchResponse (some ⟨[], some [[0xFF]]⟩))
        ≠ some ⟨⟨[], some [[0xFF]]⟩, []⟩ := by
  decide

/-- C7, amended: the string produced by `searchResponse` decodes to a
`SearchResponse`; for a non-nil index `p` whose root and paths are well-formed UTF-8 it
has index `p` and error ""; for a nil index it has the empty index (root "", paths the
empty list, written `[]` and not `null`) and the error "No results. See logs for
further details."; and for no index at all, well-formed or not, does the decoded
response have both an error and an index other than the empty one. -/
theorem C7_searchResponse_one_part_meaningful (index : Option IndexedProject)
    (h : ∀ p, index = some p → validProject p = true) :
    decodedSearch (searchResponse index) = some (match index with
        | some p => ⟨p, []⟩
        | none => ⟨⟨[], some []⟩, str "No results. See logs for further details."⟩)
      ∧ searchResponse none = .ok (QueryEscape (str
          "\x7b\"index\":\x7b\"root\":\"\",\"paths\":[]\x7d,\"error\":\"No results. See logs for further details.\"\x7d"))
      ∧ ∀ idx : Option IndexedProject, ∃ r, decodedSearch (searchResponse idx) = some r
          ∧ (r.Error = [] ∨ r.Index = ⟨[], some []⟩) := by
  refine ⟨?_, by decide, ?_⟩
  · rw [decodedSearch_searchResponse]
    cases index with
    | none => rfl
    | some p => simp only [coerceProject_of_valid p (h p rfl)]
  · intro idx
    refine ⟨_, decodedSearch_searchResponse idx, ?_⟩
    cases idx with
    | none => exact Or.inr rfl
    | some p => exact Or.inl rfl

/-- C7, amended, at the index of the spec's example. -/
theorem C7_searchResponse_one_part_meaningful_witness :
    (∀ p, some (⟨str "/tmp/proj", some [str "/tmp/proj/a.txt", str "/tmp/proj/b/c.txt"]⟩
        : IndexedProject) = some p → validProject p = true)
      ∧ decodedSearch (searchResponse
          (some ⟨str "/tmp/proj", some [str "/tmp/proj/a.txt", str "/tmp/proj/b/c.txt"]⟩))
        = some ⟨⟨str "/tmp/proj", some [str "/tmp/proj/a.txt", str "/tmp/proj/b/c.txt"]⟩, []⟩ :=
  have hv : ∀ p, some (⟨str "/tmp/proj",
      some [str "/tmp/proj/a.txt", str "/tmp/proj/b/c.txt"]⟩ : IndexedProject) = some p →
      validProject p = true := by
    intro p hp
    cases hp
    decide
  ⟨hv, (C7_searchResponse_one_part_meaningful
    (some ⟨str "/tmp/proj", some [str "/tmp/proj/a.txt", str "/tmp/proj/b/c.txt"]⟩) hv).1⟩

/-- C8: for every request string that decodes to a "files" request for whose project
root `GetFiles` returns an error, `Execute` returns (it does not panic) the encoded
`ErrorResponse` with code 500 and message "Error retrieving files."; the string
returned is this one constant, in which the error text of `GetFiles` has no part. -/
theorem C8_failed_lookup_yields_500 (GetFiles : BasicSearch → GoString → GetFilesResult)
    (g : BasicSearch) (s txt : GoString) (r : SearchRequest) (e : GoString)
    (h1 : QueryUnescape s = .ok txt) (h2 : UnmarshalSearchRequest txt = .ok r)
    (h3 : r.Type_ = str "files") (h4 : (GetFiles g r.ProjectRoot).2 = some e) :
    Execute GetFiles g s = .ok (str
        "%7B%22errorCode%22%3A500%2C%22error%22%3A%22Error+retrieving+files.%22%7D")
      ∧ decodedError (Execute GetFiles g s) = some ⟨500, str "Error retrieving files."⟩ := by
  have key : Execute GetFiles g s = errorResponse 500 (str "Error retrieving files.") := by
    rw [Execute_files GetFiles g s txt r h1 h2 h3]
    rcases hg : GetFiles g r.ProjectRoot with ⟨proj, _ | e2⟩
    · rw [hg] at h4; cases h4
    · rfl
  refine ⟨key.trans (by decide), ?_⟩
  rw [key]
  exact decodedError_500_files

/-- C8 at the "files" request for the root "/nowhere", which was never processed. -/
theorem C8_failed_lookup_yields_500_witness :
    QueryUnescape (encodeSearchRequest ⟨str "files", str "/nowhere"⟩)
        = .ok (MarshalSearchRequest ⟨str "files", str "/nowhere"⟩)
      ∧ UnmarshalSearchRequest (MarshalSearchRequest ⟨str "files", str "/nowhere"⟩)
        = .ok ⟨str "files", str "/nowhere"⟩
      ∧ (sampleGetFiles ⟨[]⟩ (str "/nowhere")).2 = some (str "project not found")
      ∧ Execute sampleGetFiles ⟨[]⟩ (encodeSearchRequest ⟨str "files", str "/nowhere"⟩)
        = .ok (str "%7B%22errorCode%22%3A500%2C%22error%22%3A%22Error+retrieving+files.%22%7D")
      ∧ decodedError (Execute sampleGetFiles ⟨[]⟩
          (encodeSearchRequest ⟨str "files", str "/nowhere"⟩))
        = some ⟨500, str "Error retrieving files."⟩ :=
  ⟨by decide, by decide, by decide,
    C8_failed_lookup_yields_500 sampleGetFiles ⟨[]⟩
      (encodeSearchRequest ⟨str "files", str "/nowhere"⟩)
      (MarshalSearchRequest ⟨str "files", str "/nowhere"⟩) ⟨str "files", str "/nowhere"⟩
      (str "project not found") (by decide) (by decide) (by decide) (by decide)⟩

/-- C9: for every non-nil request (a non-nil pointer to a non-nil request value, of
any path) and every state of the plugin, `ProcessProject` returns the nil error and
starts exactly one goroutine, the `Index` build of that request; the outcome of the
build is no input to what it returns. -/
theorem C9_ProcessProject_returns_nil (g : BasicSearch) (r : ProcessProjectReq) :
    ProcessProject g (some (some r)) = .ok (none, [Goroutine.Index (some (some r))]) := by
  rfl

/-- C10, as stated, fails, in two ways. The request
`%7B%22TYPE%22%3A%22files%22%2C%22PROJECTROOT%22%3A%22%2Ftmp%2Fproj%22%7D` unescapes
to a JSON object with the keys `TYPE` and `PROJECTROOT`, so it has no `type` key;
`json.Unmarshal` matches keys to fields case-insensitively, the request has type
"files", and `Execute` answers with the search response for "/tmp/proj", not with the
404 error. And `%7B%22projectRoot%22%3A5%7D` unescapes to a JSON object whose only key
is `projectRoot`, with a number where a string is expected: `Execute` answers with the
400 error. -/
theorem C10_missing_type_counterexample :
    responseKeys (str "%7B%22TYPE%22%3A%22files%22%2C%22PROJECTROOT%22%3A%22%2Ftmp%2Fproj%22%7D")
        = some [str "TYPE", str "PROJECTROOT"]
      ∧ str "type" ∉ [str "TYPE", str "PROJECTROOT"]
      ∧ decodedSearch (Execute sampleGetFiles ⟨[]⟩
          (str "%7B%22TYPE%22%3A%22files%22%2C%22PROJECTROOT%22%3A%22%2Ftmp%2Fproj%22%7D"))
        = some ⟨⟨str "/tmp/proj", some [str "/tmp/proj/a.txt", str "/tmp/proj/b/c.txt"]⟩, []⟩
      ∧ Execute sampleGetFiles ⟨[]⟩
          (str "%7B%22TYPE%22%3A%22files%22%2C%22PROJECTROOT%22%3A%22%2Ftmp%2Fproj%22%7D")
        ≠ errorResponse 404 (str "Unknown request type.")
      ∧ responseKeys (str "%7B%22projectRoot%22%3A5%7D") = some [str "projectRoot"]
      ∧ str "type" ∉ [str "projectRoot"]
      ∧ Execute sampleGetFiles ⟨[]⟩ (str "%7B%22projectRoot%22%3A5%7D")
        = errorResponse 400 (str "Invalid request.")
      ∧ Execute sampleGetFiles ⟨[]⟩ (str "%7B%22projectRoot%22%3A5%7D")
        ≠ errorResponse 404 (str "Unknown request type.") := by
  decide

/-- C10, amended: for every request string that unescapes to the JSON literal `null`,
or to a JSON object none of whose keys selects the field `type` (no key equal to
`type` up to the case of letters) and whose values under keys selecting `projectRoot`
are strings or `null`, or to any document that decodes to a request whose type is not
exactly "files", `Execute` returns the encoded `ErrorResponse` with code 404 and
message "Unknown request type.", not the one with code 400. -/
theorem C10_no_usable_type_yields_404 (GetFiles : BasicSearch → GoString → GetFilesResult)
    (g : BasicSearch) (s txt : GoString) (h1 : QueryUnescape s = .ok txt)
    (h2 : jsonParse txt = .ok .null
      ∨ (∃ ms, jsonParse txt = .ok (.object ms)
          ∧ (∀ kv ∈ ms, matchField (str "type") kv.1 = false)
          ∧ (∀ kv ∈ ms, matchField (str "projectRoot") kv.1 = true → fitsString kv.2 = true))
      ∨ (∃ r, UnmarshalSearchRequest txt = .ok r ∧ r.Type_ ≠ str "files")) :
    Execute GetFiles g s = errorResponse 404 (str "Unknown request type.")
      ∧ decodedError (Execute GetFiles g s) = some ⟨404, str "Unknown request type."⟩
      ∧ Execute GetFiles g s ≠ errorResponse 400 (str "Invalid request.") := by
  have key : Execute GetFiles g s = errorResponse 404 (str "Unknown request type.") := by
    rcases h2 with h | h | ⟨r, hu, ht⟩
    · obtain ⟨r, hu, ht⟩ := Unmarshal_no_type txt (Or.inl h)
      exact Execute_not_files GetFiles g s txt r h1 hu (by rw [ht]; decide)
    · obtain ⟨r, hu, ht⟩ := Unmarshal_no_type txt (Or.inr h)
      exact Execute_not_files GetFiles g s txt r h1 hu (by rw [ht]; decide)
    · exact Execute_not_files GetFiles g s txt r h1 hu ht
  refine ⟨key, ?_, ?_⟩
  · rw [key]; exact decodedError_404
  · rw [key]; decide

/-- C10, amended, at the request `%7B%7D`, the empty JSON object. -/
theorem C10_no_usable_type_yields_404_witness :
    QueryUnescape (str "%7B%7D") = .ok (str "\x7b\x7d")
      ∧ jsonParse (str "\x7b\x7d") = .ok (.object [])
      ∧ Execute sampleGetFiles ⟨[]⟩ (str "%7B%7D")
        = errorResponse 404 (str "Unknown request type.")
      ∧ decodedError (Execute sampleGetFiles ⟨[]⟩ (str "%7B%7D"))
        = some ⟨404, str "Unknown request type."⟩
      ∧ Execute sampleGetFiles ⟨[]⟩ (str "%7B%7D")
        ≠ errorResponse 400 (str "Invalid request.") :=
  ⟨by decide, rfl,
    C10_no_usable_type_yields_404 sampleGetFiles ⟨[]⟩ (str "%7B%7D") (str "\x7b\x7d")
      (by decide)
      (Or.inr (Or.inl ⟨[], rfl, (by intro kv h; cases h), (by intro kv h; cases h)⟩))⟩

/-- The JSON literal `null` as a request: 404. -/
theorem Execute_null_request :
    Execute sampleGetFiles ⟨[]⟩ (str "null")
      = errorResponse 404 (str "Unknown request type.") := by decide

/-- An object with only unknown keys as a request: 404. -/
theorem Execute_unknown_keys_request :
    Execute sampleGetFiles ⟨[]⟩ (str "%7B%22kind%22%3A%22files%22%2C%22n%22%3A%5B1%2C2%5D%7D")
      = errorResponse 404 (str "Unknown request type.") := by decide

/-- The type value is compared exactly: "Files" and "files " are unknown types. -/
theorem Execute_type_compared_exactly :
    Execute sampleGetFiles ⟨[]⟩ (encodeSearchRequest ⟨str "Files", str "/tmp/proj"⟩)
        = errorResponse 404 (str "Unknown request type.")
      ∧ Execute sampleGetFiles ⟨[]⟩ (encodeSearchRequest ⟨str "files ", str "/tmp/proj"⟩)
        = errorResponse 404 (str "Unknown request type.") := by decide

/-- An object without a `type` key whose `projectRoot` is a number as a request: the
document does not decode, 400. -/
theorem Execute_projectRoot_number :
    Execute sampleGetFiles ⟨[]⟩ (str "%7B%22projectRoot%22%3A5%7D")
      = errorResponse 400 (str "Invalid request.") := by decide

/-- A request that unescapes to text that is not JSON: 400. -/
theorem Execute_malformed_json :
    Execute sampleGetFiles ⟨[]⟩ (str "%7B%22type%22%3A") = errorResponse 400 (str "Invalid request.")
      ∧ Execute sampleGetFiles ⟨[]⟩ (str "files") = errorResponse 400 (str "Invalid request.")
      := by decide

/-- A request whose escaping ends in a lone percent sign: 500. -/
theorem Execute_trailing_percent :
    Execute sampleGetFiles ⟨[]⟩ (str "%7B%7D%")
      = errorResponse 500 (str "Could not query decode request.") := by decide

/-- A nil request pointer, or a pointer to a nil request, makes `ProcessProject`
panic at `(*req).Path()`. -/
theorem ProcessProject_nil_panics (g : BasicSearch) :
    ProcessProject g none = .error .nilDereference
      ∧ ProcessProject g (some none) = .error .nilDereference :=
  ⟨rfl, rfl⟩

end Pogo
